import Mathlib

/- Shallow embedding of the vntl-renpy-compiler job-processing service
   (app/utils.py, app/jobs.py, app/main.py, app/processors/). Paths are
   modelled as lists of components, file systems as association lists from
   component paths to byte lists, and external tools as environment
   functions. Each definition mirrors a function of the Python source. -/

-- ## Characters and strings

/-- Code points removed by CPython str.strip with no argument (str.isspace). -/
def pySpaceCode (n : Nat) : Bool :=
  (9 <= n && n <= 13) || (28 <= n && n <= 32) || n == 133 || n == 160 ||
  n == 5760 || (8192 <= n && n <= 8202) || n == 8232 || n == 8233 ||
  n == 8239 || n == 8287 || n == 12288

def isPySpace (c : Char) : Bool := pySpaceCode c.toNat

/-- Python str.strip with no argument: drop leading and trailing whitespace. -/
def pyStrip (s : String) : String :=
  String.mk (((s.data.dropWhile isPySpace).reverse.dropWhile isPySpace).reverse)

/-- The character class of SAFE_PATH_RE in app/utils.py:
    ASCII letters, digits, underscore, hyphen, dot, slash. -/
def safeCode (n : Nat) : Bool :=
  (97 <= n && n <= 122) || (65 <= n && n <= 90) || (48 <= n && n <= 57) ||
  n == 95 || n == 45 || n == 46 || n == 47

def isSafeChar (c : Char) : Bool := safeCode c.toNat

/-- re.match of SAFE_PATH_RE: the dollar anchor also matches just before a
    single trailing newline, so the whole string, or the whole string minus
    one trailing newline, must consist of characters of the class. -/
def safeMatch (s : String) : Bool :=
  s.data.all isSafeChar ||
  (s.data.getLast? == some '\n' && s.data.dropLast.all isSafeChar)

def splitSlashGo : List Char → List Char → List String
  | [], acc => [String.mk acc.reverse]
  | c :: rest, acc =>
      if c = '/' then String.mk acc.reverse :: splitSlashGo rest []
      else splitSlashGo rest (c :: acc)

/-- str.split on the slash character. -/
def splitSlash (s : String) : List String := splitSlashGo s.data []

/-- PurePosixPath(p).parts for a relative p: empty components and single-dot
    components vanish, parent segments stay. -/
def pyPartsL (p : String) : List String :=
  (splitSlash p).filter (fun c => !(c == "" || c == "."))

def resolveGo : List String → List String → List String
  | acc, [] => acc
  | acc, c :: rest =>
      if c = "" || c = "." then resolveGo acc rest
      else if c = ".." then resolveGo acc.dropLast rest
      else resolveGo (acc ++ [c]) rest

/-- Lexical form of Path.resolve on an absolute component list: empty and
    single-dot components vanish, a parent segment pops the previous one. -/
def resolveComps (cs : List String) : List String := resolveGo [] cs

def joinComps : List String → String
  | [] => ""
  | [c] => c
  | c :: rest => c ++ "/" ++ joinComps rest

/-- str of an absolute PurePosixPath with the given components. -/
def pathStr (cs : List String) : String := "/" ++ joinComps cs

/-- Python str.startswith. -/
def strStarts (s pre : String) : Bool := pre.data.isPrefixOf s.data

/-- Python str.endswith. -/
def strEnds (s suf : String) : Bool := suf.data.isSuffixOf s.data

/-- Path division base / s as in pathlib: an absolute right operand
    replaces the base entirely. -/
def pyJoin (base : List String) (s : String) : List String :=
  if strStarts s "/" then splitSlash s else base ++ splitSlash s

-- ## app/utils.py path validation

/-- app/utils.py ensure_safe_relpath: strip, then reject the empty string,
    strings with characters outside the class, a leading slash, or a parent
    segment among the path components; otherwise return the stripped string. -/
def ensure_safe_relpath (p : String) : Except String String :=
  let q := pyStrip p
  if q = "" then .error "Invalid path"
  else if !(safeMatch q) || strStarts q "/" || (pyPartsL q).contains ".." then
    .error "Invalid path"
  else .ok q

/-- app/utils.py ensure_safe_relpath_allow_empty. -/
def ensure_safe_relpath_allow_empty (p : String) : Except String String :=
  if p = "" then .ok "" else ensure_safe_relpath p

-- ## Lemmas about the string layer

abbrev Bytes := List Nat

abbrev FPath := List String

abbrev Files := List (FPath × Bytes)

/-- Overwrite-or-create a file at a path (write_bytes or write_text). -/
def setFile (files : Files) (p : FPath) (b : Bytes) : Files :=
  files.filter (fun f => !(f.1 == p)) ++ [(p, b)]

/-- shutil.rmtree of a directory or unlink of a file: removes everything at
    or below the path. -/
def removeSubtree (files : Files) (d : FPath) : Files :=
  files.filter (fun f => !(d.isPrefixOf f.1))

def hasKey (files : Files) (p : FPath) : Bool :=
  files.any (fun f => f.1 == p)

/-- Path.is_dir: one of the always-created roots, or some file lies strictly
    below the path. -/
def isDirAt (files : Files) (d : FPath) : Bool :=
  d == ([] : FPath) || d == ["input"] || d == ["output"] ||
  files.any (fun f => d.isPrefixOf f.1 && !(f.1 == d))

/-- Path.exists: a directory or a regular file is present at the path. -/
def existsAt (files : Files) (p : FPath) : Bool :=
  isDirAt files p || hasKey files p

/-- rglob files strictly below a directory, keyed relative to it. -/
def subtreeRel (files : Files) (d : FPath) : List (FPath × Bytes) :=
  files.filterMap (fun f =>
    if d.isPrefixOf f.1 && !(f.1 == d) then some (f.1.drop d.length, f.2) else none)

-- ## app/utils.py zip expansion and its use in create_job

/-- Per-entry sanitisation performed by zipfile.ZipFile.extractall on the
    entry name before joining it below the destination: empty, single-dot and
    parent components are dropped. -/
def sanitizeParts (s : String) : FPath :=
  (splitSlash s).filter (fun c => !(c == "" || c == "." || c == ".."))

/-- One extractall write: a directory entry (name ending in a slash) only
    creates a directory, a file entry is written below the destination at its
    sanitised name. -/
def zipWrite (out_dirRel : FPath) (fs : Files) (eb : String × Bytes) : Files :=
  if strEnds eb.1 "/" then fs
  else setFile fs (out_dirRel ++ sanitizeParts eb.1) eb.2

/-- app/utils.py extract_zip: every entry target is computed by joining the
    raw entry name to the destination and resolving, then containment-checked
    against the resolved destination with a string-prefix test, all before
    extractall writes anything; one failing entry aborts the whole expansion
    and nothing is written. The zip contents are passed as data, the
    destination is given relative to the job root. -/
def extract_zip (jobRoot : FPath) (files : Files) (entries : List (String × Bytes))
    (out_dirRel : FPath) : Except String Files :=
  let out_root := resolveComps (jobRoot ++ out_dirRel)
  if entries.all (fun eb =>
      strStarts (pathStr (resolveComps (pyJoin (jobRoot ++ out_dirRel) eb.1)))
        (pathStr out_root)) then
    .ok (entries.foldl (zipWrite out_dirRel) files)
  else .error "Unsafe ZIP entry detected"

/-- The nested-zip expansion step of create_job (app/main.py): extract the
    uploaded zip into the input subtree, then unlink the zip file itself. -/
def ingest_zip (jobRoot : FPath) (files : Files) (zipPath : FPath)
    (entries : List (String × Bytes)) : Except String Files :=
  match extract_zip jobRoot files entries ["input"] with
  | .error e => .error e
  | .ok files2 => .ok (files2.filter (fun f => !(f.1 == zipPath)))

-- ## Lemmas about the file system model

inductive PyExc where
  | timeoutExpired
  | fileNotFoundError
  | isADirectoryError
deriving DecidableEq

/-- The observable state touch_meta acts on: whether the job root directory
    exists, and the modification time of meta.json when that file exists. -/
structure MetaState where
  rootExists : Bool
  metaMtime : Option Int
deriving DecidableEq

/-- app/jobs.py touch_meta: utime the metadata file when it exists, else
    write a fresh one; the write raises FileNotFoundError when the parent
    job directory has vanished, and nothing catches it. -/
def touch_meta (now : Int) (s : MetaState) : Except PyExc MetaState :=
  match s.metaMtime with
  | some _ => .ok { s with metaMtime := some now }
  | none =>
      if s.rootExists then .ok { s with metaMtime := some now }
      else .error .fileNotFoundError

/-- One job directory as cleanup_jobs sees it: the metadata timestamp when
    meta.json exists, the directory mtime as fallback, and a flag modelling
    a per-job OSError, for example the directory vanishing between iterdir
    and stat. -/
structure SweepJob where
  metaMtime : Option Int
  dirMtime : Int
  statFails : Bool
deriving DecidableEq

/-- The effective last-access time: metadata timestamp if present, else the
    directory mtime. -/
def jobTs (j : SweepJob) : Int := j.metaMtime.getD j.dirMtime

/-- app/jobs.py cleanup_jobs: one sweep over all job directories, removing
    those whose effective timestamp is strictly older than now minus ttl;
    returns the count removed together with the surviving directories; a
    per-job exception is swallowed and the sweep continues with that job
    left in place. -/
def cleanup_jobs (now ttl : Int) (jobs : List SweepJob) : Nat × List SweepJob :=
  jobs.foldl (fun acc j =>
    if j.statFails then (acc.1, acc.2 ++ [j])
    else if jobTs j < now - ttl then (acc.1 + 1, acc.2)
    else (acc.1, acc.2 ++ [j])) (0, [])

/-- The observable outcome of one external invocation: completion with exit
    code, stdout and stderr, or exceeding the wall-clock timeout. -/
inductive RunOutcome where
  | done : Int → String → String → RunOutcome
  | timedOut : RunOutcome

/-- app/utils.py run_cmd: subprocess.run with a timeout; on completion the
    triple of exit code, stdout and stderr is returned; on timeout
    subprocess.run raises subprocess.TimeoutExpired, and run_cmd does not
    catch it. -/
def runCmd (o : RunOutcome) : Except PyExc (Int × String × String) :=
  match o with
  | .done c out err => .ok (c, out, err)
  | .timedOut => .error .timeoutExpired

/-- Result of one unrpyc library call on one file: log lines plus the bytes
    of the produced source file when one was written, or an exception. -/
inductive UnrpycRes where
  | ok : List String → Option Bytes → UnrpycRes
  | exc : String → UnrpycRes

/-- The external world: the unrpyc library behavior per file, which
    executables are on PATH, and the deterministic behavior of each external
    command line, given as outcome plus the files the tool writes below the
    target directory of the call, or for the packer the archive bytes it
    creates. -/
structure Env where
  unrpyc : String → Bytes → Bool → UnrpycRes
  unrpaCmd : Option String
  rpatoolCmd : Option String
  unrpaRun : List String → RunOutcome × Files
  rpatoolExtractRun : List String → RunOutcome × Files
  rpatoolPackRun : List String → RunOutcome × Option Bytes

def lastName (p : FPath) : String := p.getLastD ""

/-- PurePath.suffix: the part of the name from its last dot, when that dot
    is neither the first nor the last character, else empty. -/
def pySuffix (name : String) : String :=
  let r := name.data.reverse
  let pre := r.takeWhile (fun c => !(c == '.'))
  if pre.length = r.length then ""
  else if pre.length = 0 then ""
  else if pre.length + 1 = r.length then ""
  else String.mk ('.' :: pre.reverse)

/-- PurePath.stem: the name without its suffix. -/
def stemOf (name : String) : String :=
  String.mk (name.data.take (name.data.length - (pySuffix name).data.length))

/-- The conditional log append for a captured stream: only non-blank output
    is logged, as one whole block. -/
def stripLog (s : String) : List String := if pyStrip s = "" then [] else [s]

/-- str.join with a single space, for the logged command lines. -/
def joinSpace : List String → String
  | [] => ""
  | [c] => c
  | c :: rest => c ++ " " ++ joinSpace rest

-- ## app/processors/decompile.py

/-- app/processors/decompile.py decompile_rpyc_files, one candidate at a
    time: copy the candidate bytes to output/decompiled under its bare name,
    invoke the unrpyc library on the copy catching exceptions per file into
    a log line, and record the produced source file when it exists
    afterwards. -/
def decompile_go (u : String → Bytes → Bool → UnrpycRes) (try_harder : Bool) :
    List (FPath × Bytes) → Files → List FPath → List String →
      Files × List FPath × List String
  | [], files, produced, logs => (files, produced, logs)
  | (src, b) :: rest, files, produced, logs =>
      let name := lastName src
      let dst : FPath := ["output", "decompiled", name]
      let files1 := setFile files dst b
      match u name b try_harder with
      | .ok lines rpy? =>
          let logs1 := logs ++ lines
          let outText : FPath := ["output", "decompiled", stemOf name ++ ".rpy"]
          let files2 := match rpy? with
            | some rb => setFile files1 outText rb
            | none => files1
          let produced1 := if existsAt files2 outText then produced ++ [outText] else produced
          decompile_go u try_harder rest files2 produced1 logs1
      | .exc m =>
          decompile_go u try_harder rest files1 produced
            (logs ++ ["[unrpyc] error on " ++ name ++ ": " ++ m])

def decompile_rpyc_files (u : String → Bytes → Bool → UnrpycRes)
    (cands : List (FPath × Bytes)) (try_harder : Bool) (files : Files) :
    Files × List FPath × List String :=
  decompile_go u try_harder cands files [] []

/-- Apply the files an external tool wrote below its target directory. -/
def applyWrites (targetRel : FPath) (writes : Files) (files : Files) : Files :=
  writes.foldl (fun fs rb => setFile fs (targetRel ++ rb.1) rb.2) files

-- ## app/processors/extract.py

/-- app/processors/extract.py extract_rpa_with_unrpa, one archive at a time:
    build the argument list depending on whether the unrpa executable was
    found, run it under the timeout, append the command line and the
    non-blank captured streams to the log, apply the files the tool wrote
    below its target directory, and log a failure line on a non-zero exit;
    a timeout raises out of the whole loop. -/
def extract_rpa_go (env : Env) (jobRoot : FPath) :
    List FPath → Files → List FPath → List String →
      Except PyExc (Files × List FPath × List String)
  | [], files, produced, logs => .ok (files, produced, logs)
  | arc :: rest, files, produced, logs =>
      let name := lastName arc
      let targetRel : FPath := ["output", "rpa_extract", stemOf name]
      let targetAbs := pathStr (jobRoot ++ targetRel)
      let arcAbs := pathStr (jobRoot ++ arc)
      let args := match env.unrpaCmd with
        | some c => [c, "-m", "-p", targetAbs, arcAbs]
        | none => ["python", "-m", "unrpa", "-m", "-p", targetAbs, arcAbs]
      let r := env.unrpaRun args
      match runCmd r.1 with
      | .error e => .error e
      | .ok (code, out, err) =>
          let logs1 := logs ++ ["$ " ++ joinSpace args] ++ stripLog out ++ stripLog err
          let files1 := applyWrites targetRel r.2 files
          if code = 0 then
            extract_rpa_go env jobRoot rest files1 (produced ++ [targetRel]) logs1
          else
            extract_rpa_go env jobRoot rest files1 produced
              (logs1 ++ ["[unrpa] failed (" ++ toString code ++ ") for " ++ name])

def extract_rpa_with_unrpa (env : Env) (jobRoot : FPath) (archives : List FPath)
    (files : Files) : Except PyExc (Files × List FPath × List String) :=
  extract_rpa_go env jobRoot archives files [] []

/-- One rpatool extraction attempt inside extract_rpi_with_rpatool. -/
def rpi_try (env : Env) (jobRoot : FPath) (cmd : String) (targetRel : FPath)
    (archive : FPath) (files : Files) (logs : List String) :
    Except PyExc (Int × Files × List String) :=
  let args := [cmd, "-o", pathStr (jobRoot ++ targetRel), "-x", pathStr (jobRoot ++ archive)]
  let r := env.rpatoolExtractRun args
  match runCmd r.1 with
  | .error e => .error e
  | .ok (code, out, err) =>
      .ok (code, applyWrites targetRel r.2 files,
        logs ++ ["$ " ++ joinSpace args] ++ stripLog out ++ stripLog err)

/-- app/processors/extract.py extract_rpi_with_rpatool, one index file at a
    time: try the index file itself; on a non-zero exit, when a matching
    data archive exists at the top of the input subtree and was not already
    tried, log the fallback line and try that archive; log a failure line
    naming every tried file when the last attempt still failed; a timeout
    raises out of the whole loop. -/
def extract_rpi_go (env : Env) (jobRoot : FPath) (cmd : String) :
    List FPath → Files → List FPath → List String →
      Except PyExc (Files × List FPath × List String)
  | [], files, produced, logs => .ok (files, produced, logs)
  | rpi :: rest, files, produced, logs =>
      let name := lastName rpi
      let targetRel : FPath := ["output", "rpi_extract", stemOf name]
      match rpi_try env jobRoot cmd targetRel rpi files logs with
      | .error e => .error e
      | .ok (code, files1, logs1) =>
          if code = 0 then
            extract_rpi_go env jobRoot cmd rest files1 (produced ++ [targetRel]) logs1
          else
            let matching : FPath := ["input", stemOf name ++ ".rpa"]
            if existsAt files1 matching && !(matching == rpi) then
              let logs2 := logs1 ++
                ["[rpatool] .rpi extract failed; trying matching data archive: " ++
                  lastName matching]
              match rpi_try env jobRoot cmd targetRel matching files1 logs2 with
              | .error e => .error e
              | .ok (code2, files2, logs3) =>
                  if code2 = 0 then
                    extract_rpi_go env jobRoot cmd rest files2 (produced ++ [targetRel]) logs3
                  else
                    extract_rpi_go env jobRoot cmd rest files2 produced
                      (logs3 ++ ["[rpatool] failed (" ++ toString code2 ++ ") for " ++
                        name ++ ", " ++ lastName matching])
            else
              extract_rpi_go env jobRoot cmd rest files1 produced
                (logs1 ++ ["[rpatool] failed (" ++ toString code ++ ") for " ++ name])

def extract_rpi_with_rpatool (env : Env) (jobRoot : FPath) (rpis : List FPath)
    (files : Files) : Except PyExc (Files × List FPath × List String) :=
  extract_rpi_go env jobRoot (env.rpatoolCmd.getD "rpatool") rpis files [] []

-- ## app/processors/pack.py

def hexDigitVal (c : Char) : Option Nat :=
  if '0' ≤ c ∧ c ≤ '9' then some (c.toNat - 48)
  else if 'a' ≤ c ∧ c ≤ 'f' then some (c.toNat - 87)
  else if 'A' ≤ c ∧ c ≤ 'F' then some (c.toNat - 55)
  else none

def parseHexGo : Nat → List Char → Option Nat
  | acc, [] => some acc
  | acc, '_' :: rest =>
      match rest with
      | [] => none
      | c :: rest2 =>
          match hexDigitVal c with
          | some d => parseHexGo (16 * acc + d) rest2
          | none => none
  | acc, c :: rest =>
      match hexDigitVal c with
      | some d => parseHexGo (16 * acc + d) rest
      | none => none

/-- Digit part of CPython int(s, 16): a first hex digit, then hex digits
    with single underscores permitted between digits. -/
def parseHexDigits : List Char → Option Nat
  | [] => none
  | c :: rest =>
      match hexDigitVal c with
      | some d => parseHexGo d rest
      | none => none

/-- CPython int(str, 16): strip whitespace, optional sign, optional 0x or
    0X prefix with an optional single underscore after it, then the digit
    part. Unicode digit characters beyond ASCII are outside the modelled
    inputs. -/
def pyIntHex (s : String) : Option Int :=
  let cs := (pyStrip s).data
  let sgn := match cs with
    | '+' :: r => (false, r)
    | '-' :: r => (true, r)
    | r => (false, r)
  let body := match sgn.2 with
    | '0' :: x :: r =>
        if x = 'x' ∨ x = 'X' then
          (match r with
           | '_' :: r2 => parseHexDigits r2
           | _ => parseHexDigits r)
        else parseHexDigits sgn.2
    | _ => parseHexDigits sgn.2
  match body with
  | none => none
  | some n => some (if sgn.1 then -(n : Int) else (n : Int))

def hexChar (n : Nat) : Char :=
  if n < 10 then Char.ofNat (48 + n) else Char.ofNat (87 + (n - 10))

/-- repr of one character inside a Python string literal with the given
    quote character; ASCII fidelity is all the log lines need. -/
def pyReprChar (q : Char) (c : Char) : String :=
  if c = '\\' then "\\\\"
  else if c = q then String.mk ['\\', q]
  else if c = '\n' then "\\n"
  else if c = '\r' then "\\r"
  else if c = '\t' then "\\t"
  else if c.toNat < 32 ∨ c.toNat = 127 then
    String.mk ['\\', 'x', hexChar (c.toNat / 16), hexChar (c.toNat % 16)]
  else String.singleton c

/-- CPython repr of a str: single quotes unless the string contains a
    single quote and no double quote. -/
def pyRepr (s : String) : String :=
  let q := if s.data.contains (Char.ofNat 39) && !(s.data.contains '"') then '"'
    else Char.ofNat 39
  String.singleton q ++ String.join (s.data.map (pyReprChar q)) ++ String.singleton q

/-- iterdir names of the staging directory: first occurrence of each
    top-level component below it. -/
def topNames (files : Files) (d : FPath) : List String :=
  (files.filterMap (fun f =>
    if d.isPrefixOf f.1 then (f.1.drop d.length).head? else none)).dedup

/-- The staging copy loop of pack_rpa_from_dir: write every source file
    below the staging directory at its source-relative path. -/
def stageFold (d : FPath) (src : List (FPath × Bytes)) (fs : Files) : Files :=
  src.foldl (fun fs rb => setFile fs (d ++ rb.1) rb.2) fs

/-- app/processors/pack.py pack_rpa_from_dir: check the source directory,
    clear and repopulate the private staging directory output/_packroot with
    a byte-for-byte copy of the source files, fail with a log line on an
    empty staging directory, unlink a pre-existing archive at the output
    path, parse the key as a hexadecimal integer failing with a log line,
    and invoke rpatool from the staging directory; the staging directory is
    never removed afterwards. Returns the updated files, the created
    archive path if any, and the log lines. -/
def pack_rpa_from_dir (env : Env) (jobRoot : FPath) (files : Files)
    (sourceRel : FPath) (archive_name : String) (version : Int)
    (key_hex : String) (padding : Int) :
    Except PyExc (Files × Option FPath × List String) :=
  if !(isDirAt files sourceRel) then
    .ok (files, none,
      ["[pack] Source directory not found: " ++ pathStr (jobRoot ++ sourceRel)])
  else
    let packroot : FPath := ["output", "_packroot"]
    let cleared := removeSubtree files packroot
    let src := subtreeRel cleared sourceRel
    let staged := stageFold packroot src cleared
    let entries := topNames staged packroot
    if entries = [] then .ok (staged, none, ["[pack] Source directory is empty."])
    else
      let cmd := env.rpatoolCmd.getD "rpatool"
      let outPath : FPath := ["output"] ++ pyPartsL archive_name
      match (if existsAt staged outPath then
              (if isDirAt staged outPath then Except.error PyExc.isADirectoryError
               else Except.ok (staged.filter (fun f => !(f.1 == outPath))))
             else Except.ok staged) with
      | .error e => .error e
      | .ok files2 =>
          match pyIntHex key_hex with
          | none =>
              .ok (files2, none,
                ["[pack] Invalid key_hex: " ++ pyRepr key_hex ++
                  " (expected hex like 0x1234)"])
          | some keyInt =>
              let args := [cmd, if version = 2 then "-2" else "-3", "-k",
                toString keyInt, "-p", toString padding, "-c",
                pathStr (jobRoot ++ outPath)] ++ entries
              let r := env.rpatoolPackRun args
              match runCmd r.1 with
              | .error e => .error e
              | .ok (code, out, err) =>
                  let logs := ["$ (cwd=" ++ pathStr (jobRoot ++ packroot) ++ ") " ++
                    joinSpace args] ++ stripLog out ++ stripLog err
                  let files3 := match r.2 with
                    | some ab => setFile files2 outPath ab
                    | none => files2
                  if code ≠ 0 ∨ r.2 = none then
                    .ok (files3, none,
                      logs ++ ["[pack] rpatool failed (" ++ toString code ++ ")."])
                  else
                    .ok (files3, some outPath, logs)

-- ## app/main.py dispatcher, repack and move

inductive Mode where
  | auto | decompile | extract_rpa | extract_rpi | pack_rpa
deriving DecidableEq

inductive Side where
  | input | output
deriving DecidableEq

/-- The pack and repack parameter set: query parameters of the process
    endpoint, body fields of the repack endpoint. -/
structure PackQuery where
  pack_source_where : Side
  pack_source_path : String
  pack_name : String
  pack_version : Int
  pack_key_hex : String
  pack_padding : Int

inductive HErr where
  | jobNotFound
  | invalidPackSourcePath
  | invalidPathValue
  | exc : PyExc → HErr
deriving DecidableEq

/-- A job as the dispatcher sees it: whether the workspace root still
    exists, and the files below it keyed relative to the job root, the
    input side under the input component and the output side under the
    output component. -/
structure Job where
  rootExists : Bool
  files : Files

/-- rglob of the input subtree by extension: files below the directory
    whose bare names end with the pattern extension. -/
def rglobFiles (files : Files) (d : FPath) (ext : String) : List (FPath × Bytes) :=
  files.filter (fun f => d.isPrefixOf f.1 && strEnds (lastName f.1) ext)

/-- The subtree component of a job side. -/
def sideComps : Side → FPath
  | .input => ["input"]
  | .output => ["output"]

/-- The pack branch shared by process_job and repack_job: resolve the
    source directory through the allow-empty validator, raising the
    validation ValueError on a bad path, check containment of the resolved
    string against the base by string prefix, then run pack_rpa_from_dir
    and append the created line; the tag is pack for the process endpoint
    and repack for the repack endpoint. -/
def packBranch (env : Env) (jobRoot : FPath) (tag : String) (q : PackQuery)
    (files : Files) : Except HErr (Files × List String) :=
  let baseRel : FPath := sideComps q.pack_source_where
  match ensure_safe_relpath_allow_empty q.pack_source_path with
  | .error _ => .error .invalidPathValue
  | .ok rel =>
      let sourceAbs := resolveComps (jobRoot ++ baseRel ++ splitSlash rel)
      let baseAbs := resolveComps (jobRoot ++ baseRel)
      if !(strStarts (pathStr sourceAbs) (pathStr baseAbs)) then
        .error .invalidPackSourcePath
      else
        let sourceRel := baseRel ++ pyPartsL rel
        match pack_rpa_from_dir env jobRoot files sourceRel q.pack_name
            q.pack_version q.pack_key_hex q.pack_padding with
        | .error e => .error (.exc e)
        | .ok (files2, outP?, logs) =>
            .ok (files2, logs ++ (match outP? with
              | some p => ["[" ++ tag ++ "] created: " ++ lastName p]
              | none => []))

/-- app/main.py process_job: job-existence check, full wipe and recreation
    of the output subtree, candidate classification of the input subtree by
    extension, then the four mode branches in their fixed order, threading
    the files and concatenating the logs; the metadata touch acts on the
    separately modelled metadata state. The response carries the final
    files, whose output subtree the endpoint snapshots, and the logs. -/
def process_job (env : Env) (jobRoot : FPath) (mode : Mode) (try_harder : Bool)
    (q : PackQuery) (j : Job) : Except HErr (Files × List String) :=
  if !j.rootExists then .error .jobNotFound
  else
    let files0 := removeSubtree j.files ["output"]
    let rpycs := rglobFiles files0 ["input"] ".rpyc"
    let rpas := (rglobFiles files0 ["input"] ".rpa").map (fun f => f.1)
    let rpis := (rglobFiles files0 ["input"] ".rpi").map (fun f => f.1)
    let step1 : Files × List String :=
      if mode = .auto ∨ mode = .decompile then
        if rpycs ≠ [] then
          let r := decompile_rpyc_files env.unrpyc rpycs try_harder files0
          (r.1, r.2.2)
        else (files0, ["[decompile] No .rpyc files found."])
      else (files0, [])
    match (if mode = .auto ∨ mode = .extract_rpa then
            if rpas ≠ [] then
              (extract_rpa_with_unrpa env jobRoot rpas step1.1).map
                (fun r => (r.1, r.2.2))
            else .ok (step1.1, ["[extract_rpa] No .rpa files found."])
          else Except.ok (step1.1, ([] : List String))) with
    | .error e => .error (.exc e)
    | .ok step2 =>
      match (if mode = .auto ∨ mode = .extract_rpi then
              if rpis ≠ [] then
                (extract_rpi_with_rpatool env jobRoot rpis step2.1).map
                  (fun r => (r.1, r.2.2))
              else .ok (step2.1, ["[extract_rpi] No .rpi files found."])
            else Except.ok (step2.1, ([] : List String))) with
      | .error e => .error (.exc e)
      | .ok step3 =>
        match (if mode = .auto ∨ mode = .pack_rpa then
                packBranch env jobRoot "pack" q step3.1
              else Except.ok (step3.1, ([] : List String))) with
        | .error e => .error e
        | .ok step4 =>
            .ok (step4.1, step1.2 ++ step2.2 ++ step3.2 ++ step4.2)

/-- app/main.py repack_job: job-existence check, no output wipe, then the
    shared pack branch with the repack tag. -/
def repack_job (env : Env) (jobRoot : FPath) (q : PackQuery) (j : Job) :
    Except HErr (Files × List String) :=
  if !j.rootExists then .error .jobNotFound
  else packBranch env jobRoot "repack" q j.files

inductive MoveErr where
  | jobNotFound
  | invalidPathValue
  | srcNotFound
  | invalidDestination
  | invalidMove
  | conflict
deriving DecidableEq

/-- app/main.py fs_move: validate both relative paths, resolve them below
    the side root, require the source inside the root and existing and the
    destination inside the root, reject with the invalid-move error a
    directory source whose resolved path string is a string-prefix of the
    resolved destination string, fail on a non-overwriting conflict, then
    remove an existing destination and rename the source subtree. -/
def fs_move (jobRoot : FPath) (sideRel : FPath) (sideExists : Bool)
    (files : Files) (srcS dstS : String) (overwrite : Bool) :
    Except MoveErr Files :=
  if !sideExists then .error .jobNotFound
  else
    match ensure_safe_relpath srcS, ensure_safe_relpath dstS with
    | .error _, _ => .error .invalidPathValue
    | .ok _, .error _ => .error .invalidPathValue
    | .ok srcRel, .ok dstRel =>
        let src := resolveComps (jobRoot ++ sideRel ++ splitSlash srcRel)
        let dst := resolveComps (jobRoot ++ sideRel ++ splitSlash dstRel)
        let rootAbs := resolveComps (jobRoot ++ sideRel)
        let srcP := sideRel ++ pyPartsL srcRel
        let dstP := sideRel ++ pyPartsL dstRel
        if !(strStarts (pathStr src) (pathStr rootAbs)) || !(existsAt files srcP) then
          .error .srcNotFound
        else if !(strStarts (pathStr dst) (pathStr rootAbs)) then
          .error .invalidDestination
        else if isDirAt files srcP && strStarts (pathStr dst) (pathStr src) then
          .error .invalidMove
        else if existsAt files dstP && !overwrite then
          .error .conflict
        else
          let files1 := if existsAt files dstP then removeSubtree files dstP else files
          .ok (files1.map (fun f =>
            if srcP.isPrefixOf f.1 then (dstP ++ f.1.drop srcP.length, f.2) else f))



-- ## Lemmas about resolution and joining

/-- Fixture: the default pack parameters of the process endpoint. -/
def qDefault : PackQuery := ⟨Side.input, "", "packed.rpa", 3, "0xDEADBEEF", 0⟩

/-- Fixture: an external world in which the unrpa invocation exceeds its
    timeout while every other tool succeeds. -/
def envTimeout : Env where
  unrpyc := fun _ _ _ => .ok [] none
  unrpaCmd := some "unrpa"
  rpatoolCmd := some "rpatool"
  unrpaRun := fun _ => (.timedOut, [])
  rpatoolExtractRun := fun _ => (.done 0 "" "", [])
  rpatoolPackRun := fun _ => (.done 0 "" "", some [1])

/-- Fixture: the same world but with unrpa failing with exit code one
    instead of timing out. -/
def envExitFail : Env := { envTimeout with unrpaRun := fun _ => (.done 1 "" "", []) }

/-- Fixture: a job holding one container archive and one index file. -/
def jobT5 : Job := ⟨true, [(["input", "b.rpa"], [1]), (["input", "c.rpi"], [2])]⟩

/-- Fixture: an external world in which every tool succeeds. -/
def envOk : Env where
  unrpyc := fun _ _ _ => .ok [] none
  unrpaCmd := some "unrpa"
  rpatoolCmd := some "rpatool"
  unrpaRun := fun _ => (.done 0 "" "", [])
  rpatoolExtractRun := fun _ => (.done 0 "" "", [])
  rpatoolPackRun := fun _ => (.done 0 "" "", some [7])

/-- The proper ancestor directories of a relative file path. -/
def properAncestors (p : FPath) : List FPath :=
  (List.range (p.length - 1)).map (fun k => p.take (k + 1))

/-- The directory paths rendered by the walk_tree snapshot of a side: every
    proper ancestor, relative to the root, of a file path below the root. -/
def snapshotDirs (files : Files) (root : FPath) : List FPath :=
  (files.map (fun f =>
    if root.isPrefixOf f.1 then properAncestors (f.1.drop root.length) else [])).flatten

/-- The input-side files of a state, in order. -/
def inputPart (files : Files) : Files :=
  files.filter (fun f => f.1.head? == some "input")

/-- The freshly wiped workspace at the start of process_job. -/
def files0Of (jf : Files) : Files := removeSubtree jf ["output"]

/-- The decompile candidates of process_job. -/
def rpycsOf (jf : Files) : List (FPath × Bytes) :=
  rglobFiles (files0Of jf) ["input"] ".rpyc"

/-- The container-archive candidates of process_job. -/
def rpasOf (jf : Files) : List FPath :=
  (rglobFiles (files0Of jf) ["input"] ".rpa").map (fun f => f.1)

/-- The index-file candidates of process_job. -/
def rpisOf (jf : Files) : List FPath :=
  (rglobFiles (files0Of jf) ["input"] ".rpi").map (fun f => f.1)

/-- The decompile stage of process_job when its mode is requested. -/
def step1Of (env : Env) (th : Bool) (jf : Files) : Files × List String :=
  if rpycsOf jf ≠ [] then
    ((decompile_rpyc_files env.unrpyc (rpycsOf jf) th (files0Of jf)).1,
     (decompile_rpyc_files env.unrpyc (rpycsOf jf) th (files0Of jf)).2.2)
  else (files0Of jf, ["[decompile] No .rpyc files found."])

/-- Fixture: an external world where the container extractor exceeds its
    timeout while the index-file extractor succeeds and writes one file. -/
def envC4 : Env where
  unrpyc := fun _ _ _ => .ok [] none
  unrpaCmd := some "unrpa"
  rpatoolCmd := some "rpatool"
  unrpaRun := fun _ => (.timedOut, [])
  rpatoolExtractRun := fun _ => (.done 0 "" "", [(["x.txt"], [9])])
  rpatoolPackRun := fun _ => (.done 0 "" "", some [1])

/-- Fixture: a job holding one container archive and one index file. -/
def jobC4 : Job := ⟨true, [(["input", "d.rpa"], [3]), (["input", "e.rpi"], [4])]⟩

/-- Fixture: a benign external world for the decomposition witness. -/
def envW4 : Env where
  unrpyc := fun _ _ _ => .ok [] none
  unrpaCmd := some "unrpa"
  rpatoolCmd := some "rpatool"
  unrpaRun := fun _ => (.done 0 "" "", [])
  rpatoolExtractRun := fun _ => (.done 0 "" "", [])
  rpatoolPackRun := fun _ => (.done 0 "" "", some [1])

/-- Fixture: a job with an empty workspace. -/
def jobW4 : Job := ⟨true, []⟩

-- ## Theorems

lemma safe_not_pyspace (c : Char) (h : isSafeChar c = true) : isPySpace c = false := by
  simp only [isSafeChar, safeCode, isPySpace, pySpaceCode] at *
  simp only [Bool.or_eq_true, Bool.and_eq_true, decide_eq_true_eq, beq_iff_eq] at h
  simp only [Bool.or_eq_false_iff, Bool.and_eq_false_iff, decide_eq_false_iff_not, beq_eq_false_iff_ne, ne_eq]
  omega

lemma dropWhile_eq_self_of_none {α : Type} (p : α → Bool) (l : List α)
    (h : ∀ c ∈ l, p c = false) : l.dropWhile p = l := by
  cases l with
  | nil => rfl
  | cons a t =>
    rw [List.dropWhile]
    have := h a (by simp)
    simp [this]

lemma head_dropWhile_false {α : Type} (p : α → Bool) (l : List α) (c : α) (t : List α)
    (h : l.dropWhile p = c :: t) : p c = false := by
  induction l with
  | nil => simp [List.dropWhile] at h
  | cons a rest ih =>
    rw [List.dropWhile] at h
    by_cases hp : p a = true
    · rw [hp] at h; simp at h; exact ih h
    · simp only [Bool.not_eq_true] at hp
      rw [hp] at h; simp at h
      rw [← h.1]; exact hp

lemma pyStrip_id_of_safe (s : String) (h : s.data.all isSafeChar = true) :
    pyStrip s = s := by
  have hall : ∀ c ∈ s.data, isSafeChar c = true := by
    intro c hc; exact List.all_eq_true.mp h c hc
  have hns : ∀ c ∈ s.data, isPySpace c = false := by
    intro c hc; exact safe_not_pyspace c (hall c hc)
  unfold pyStrip
  rw [dropWhile_eq_self_of_none _ _ hns]
  rw [dropWhile_eq_self_of_none _ _ (by intro c hc; exact hns c (by simpa using hc))]
  simp

lemma pyStrip_last_not_space (s : String) (c : Char) (t : List Char)
    (h : (pyStrip s).data = t ++ [c]) : isPySpace c = false := by
  unfold pyStrip at h
  set L := (s.data.dropWhile isPySpace).reverse.dropWhile isPySpace with hL
  have hdat : L.reverse = t ++ [c] := h
  have : L = c :: t.reverse := by
    have := congrArg List.reverse hdat
    simpa using this
  exact head_dropWhile_false _ _ _ _ (hL ▸ this)

lemma safeMatch_stripped (p : String) (hne : (pyStrip p) ≠ "") :
    safeMatch (pyStrip p) = (pyStrip p).data.all isSafeChar := by
  unfold safeMatch
  cases hdat : (pyStrip p).data with
  | nil =>
    exact absurd (String.ext (hdat.trans rfl)) hne
  | cons a rest =>
    have hne2 : (pyStrip p).data ≠ [] := by rw [hdat]; simp
    obtain ⟨t, c, htc⟩ : ∃ t c, (pyStrip p).data = t ++ [c] := by
      rcases List.eq_nil_or_concat (pyStrip p).data with h | ⟨t, c, h⟩
      · exact absurd h hne2
      · exact ⟨t, c, by rw [h, List.concat_eq_append]⟩
    have hcs : isPySpace c = false := pyStrip_last_not_space p c t htc
    have hlast : (pyStrip p).data.getLast? = some c := by
      rw [htc]; simp
    rw [← hdat, hlast]
    have hcne : ¬(c = '\n') := by
      intro hc; rw [hc] at hcs; simp [isPySpace, pySpaceCode] at hcs
    simp [hcne]

lemma resolveGo_good (l : List String) :
    ∀ acc, (∀ c ∈ l, c ≠ "" ∧ c ≠ "." ∧ c ≠ "..") → resolveGo acc l = acc ++ l := by
  induction l with
  | nil => intro acc _; simp [resolveGo]
  | cons a rest ih =>
    intro acc h
    have ha := h a (by simp)
    rw [resolveGo]
    rw [if_neg (by simp [ha.1, ha.2.1]), if_neg (by simp [ha.2.2])]
    rw [ih (acc ++ [a]) (by intro c hc; exact h c (by simp [hc]))]
    simp

lemma pyPartsL_mem (p : String) (c : String) (h : c ∈ pyPartsL p) :
    c ≠ "" ∧ c ≠ "." := by
  unfold pyPartsL at h
  have := (List.mem_filter.mp h).2
  simp only [Bool.not_eq_true', Bool.or_eq_false_iff, beq_eq_false_iff_ne, ne_eq] at this
  exact this

lemma resolveComps_append_good (root : List String) (parts : List String)
    (hroot : ∀ c ∈ root, c ≠ "" ∧ c ≠ "." ∧ c ≠ "..")
    (hparts : ∀ c ∈ parts, c ≠ "" ∧ c ≠ "." ∧ c ≠ "..") :
    resolveComps (root ++ parts) = root ++ parts := by
  unfold resolveComps
  rw [resolveGo_good (root ++ parts) [] (by
    intro c hc
    rcases List.mem_append.mp hc with h | h
    · exact hroot c h
    · exact hparts c h)]
  simp

lemma mem_of_contains_true {l : List String} {a : String}
    (h : l.contains a = true) : a ∈ l := by
  have : l.elem a = true := h
  exact List.elem_iff.mp this

lemma not_mem_of_contains_false {l : List String} {a : String}
    (h : l.contains a = false) : a ∉ l := by
  intro hm
  have : l.elem a = true := List.elem_iff.mpr hm
  have hc : l.contains a = true := this
  rw [hc] at h
  exact absurd h (by simp)

/-- C1 (amended): validation first applies Python whitespace stripping; the
    stripped string is accepted (and returned) exactly when it is non-empty,
    consists only of the allowed characters, does not begin with a slash and
    has no parent segment among its components, and is rejected otherwise.
    For an input that already satisfies all of those conditions (hence is
    whitespace-free) the claim as stated holds: the input is accepted
    unchanged and joining it to a resolved sandbox root stays inside that
    root. The original claim fails only because stripping happens first, so
    a string such as a name surrounded by spaces, which contains characters
    outside the allowed set, is accepted rather than rejected. -/
theorem ensure_safe_relpath_validation (p : String) (root : List String)
    (hroot : ∀ c ∈ root, c ≠ "" ∧ c ≠ "." ∧ c ≠ "..") :
    ((pyStrip p ≠ "" ∧ (pyStrip p).data.all isSafeChar = true ∧
        strStarts (pyStrip p) "/" = false ∧
        (pyPartsL (pyStrip p)).contains ".." = false) →
      ensure_safe_relpath p = .ok (pyStrip p)) ∧
    ((¬ (pyStrip p ≠ "" ∧ (pyStrip p).data.all isSafeChar = true ∧
        strStarts (pyStrip p) "/" = false ∧
        (pyPartsL (pyStrip p)).contains ".." = false)) →
      ensure_safe_relpath p = .error "Invalid path") ∧
    ((p ≠ "" ∧ p.data.all isSafeChar = true ∧ strStarts p "/" = false ∧
        (pyPartsL p).contains ".." = false) →
      ensure_safe_relpath p = .ok p ∧ root <+: resolveComps (root ++ pyPartsL p)) := by
  refine ⟨?_, ?_, ?_⟩
  · rintro ⟨h1, h2, h3, h4⟩
    unfold ensure_safe_relpath
    rw [if_neg h1, if_neg]
    rw [safeMatch_stripped p h1, h2, h3, h4]
    simp
  · intro hno
    unfold ensure_safe_relpath
    by_cases h1 : pyStrip p = ""
    · rw [if_pos h1]
    · rw [if_neg h1, if_pos]
      by_cases h2 : (pyStrip p).data.all isSafeChar = true
      · by_cases h3 : strStarts (pyStrip p) "/" = false
        · by_cases h4 : (pyPartsL (pyStrip p)).contains ".." = false
          · exact absurd ⟨h1, h2, h3, h4⟩ hno
          · simp only [Bool.not_eq_false] at h4
            simp only [Bool.or_eq_true]
            right
            exact h4
        · simp only [Bool.not_eq_false] at h3
          simp [h3]
      · simp only [Bool.not_eq_true] at h2
        rw [safeMatch_stripped p h1, h2]
        simp
  · rintro ⟨h1, h2, h3, h4⟩
    have hid : pyStrip p = p := pyStrip_id_of_safe p h2
    have hparts : ∀ c ∈ pyPartsL p, c ≠ "" ∧ c ≠ "." ∧ c ≠ ".." := by
      intro c hc
      refine ⟨(pyPartsL_mem p c hc).1, (pyPartsL_mem p c hc).2, ?_⟩
      intro hdd
      exact not_mem_of_contains_false h4 (hdd ▸ hc)
    constructor
    · have h1s : pyStrip p ≠ "" := by rw [hid]; exact h1
      unfold ensure_safe_relpath
      rw [if_neg h1s, if_neg]
      · rw [hid]
      · rw [safeMatch_stripped p h1s, hid, h2, h3, h4]
        simp
    · rw [resolveComps_append_good root (pyPartsL p) hroot hparts]
      exact List.prefix_append root (pyPartsL p)

/-- Witness for the amended C1 theorem at a concrete safe path and root. -/
theorem ensure_safe_relpath_validation_witness :
    ensure_safe_relpath "game/script.rpy" = .ok "game/script.rpy" ∧
    ["tmp", "jobs", "j1", "input"] <+:
      resolveComps (["tmp", "jobs", "j1", "input"] ++ pyPartsL "game/script.rpy") :=
  (ensure_safe_relpath_validation "game/script.rpy" ["tmp", "jobs", "j1", "input"]
    (by decide)).2.2 ⟨by decide, by decide, by decide, by decide⟩

/-- C1 is refuted as stated: the string consisting of the letter a surrounded
    by spaces contains characters outside the allowed set, so the claim
    requires rejection, yet the code strips whitespace first and accepts it,
    returning a different string. -/
theorem ensure_safe_relpath_strip_cex :
    ensure_safe_relpath " a " = .ok "a" ∧
    (" a ").data.all isSafeChar = false ∧ (" a " : String) ≠ "a" :=
  ⟨rfl, rfl, by decide⟩

-- ## File system model

/- Files are an association list from absolute-within-the-job component
   paths to byte lists; directories are implicit, existing whenever a file
   lies strictly below them, with the job root and the two sides always
   present because the job store creates them. -/

lemma mem_setFile {files : Files} {p : FPath} {b : Bytes} {f : FPath × Bytes}
    (h : f ∈ setFile files p b) : f ∈ files ∨ f = (p, b) := by
  unfold setFile at h
  rcases List.mem_append.mp h with h | h
  · exact Or.inl (List.mem_filter.mp h).1
  · simp only [List.mem_singleton] at h
    exact Or.inr h

lemma hasKey_setFile_self (files : Files) (p : FPath) (b : Bytes) :
    hasKey (setFile files p b) p = true := by
  unfold hasKey setFile
  simp

lemma hasKey_setFile_mono {files : Files} {q : FPath} (p : FPath) (b : Bytes)
    (h : hasKey files q = true) : hasKey (setFile files p b) q = true := by
  by_cases hqp : q = p
  · rw [hqp]; exact hasKey_setFile_self files p b
  · unfold hasKey at h ⊢
    unfold setFile
    rw [List.any_append]
    simp only [Bool.or_eq_true]
    left
    rw [List.any_filter]
    rw [List.any_eq_true] at h ⊢
    obtain ⟨f, hf, hfq⟩ := h
    refine ⟨f, hf, ?_⟩
    have : f.1 = q := by simpa using hfq
    simp [this, hqp]

lemma hasKey_zipWrite_mono (d : FPath) {fs : Files} {q : FPath} (eb : String × Bytes)
    (h : hasKey fs q = true) : hasKey (zipWrite d fs eb) q = true := by
  unfold zipWrite
  split
  · exact h
  · exact hasKey_setFile_mono _ _ h

lemma hasKey_zipFoldl_mono (d : FPath) (l : List (String × Bytes)) :
    ∀ fs q, hasKey fs q = true → hasKey (l.foldl (zipWrite d) fs) q = true := by
  induction l with
  | nil => intro fs q h; exact h
  | cons a rest ih =>
    intro fs q h
    rw [List.foldl_cons]
    exact ih _ _ (hasKey_zipWrite_mono d a h)

lemma hasKey_zipFold (d : FPath) (entries : List (String × Bytes)) :
    ∀ fs : Files, ∀ eb ∈ entries, strEnds eb.1 "/" = false →
      hasKey (entries.foldl (zipWrite d) fs) (d ++ sanitizeParts eb.1) = true := by
  induction entries with
  | nil => intro fs eb h; simp at h
  | cons a rest ih =>
    intro fs eb hmem hnd
    rw [List.foldl_cons]
    rcases List.mem_cons.mp hmem with h | h
    · subst h
      have hkey : hasKey (zipWrite d fs eb) (d ++ sanitizeParts eb.1) = true := by
        unfold zipWrite
        rw [if_neg (by simp [hnd])]
        exact hasKey_setFile_self _ _ _
      exact hasKey_zipFoldl_mono d rest _ _ hkey
    · exact ih _ eb h hnd

lemma hasKey_exists_mem {files : Files} {p : FPath} (h : hasKey files p = true) :
    ∃ b, (p, b) ∈ files := by
  unfold hasKey at h
  rw [List.any_eq_true] at h
  obtain ⟨f, hf, hfp⟩ := h
  have : f.1 = p := by simpa using hfp
  exact ⟨f.2, by rw [← this]; exact hf⟩

lemma mem_zipFold (d : FPath) (entries : List (String × Bytes)) :
    ∀ fs : Files, ∀ f ∈ entries.foldl (zipWrite d) fs,
      f ∈ fs ∨ d <+: f.1 := by
  induction entries with
  | nil => intro fs f hf; exact Or.inl hf
  | cons a rest ih =>
    intro fs f hf
    rw [List.foldl_cons] at hf
    rcases ih _ f hf with h | h
    · unfold zipWrite at h
      split at h
      · exact Or.inl h
      · rcases mem_setFile h with h2 | h2
        · exact Or.inl h2
        · right
          rw [h2]
          exact List.prefix_append d _
    · exact Or.inr h

/-- C2 (amended): expansion of an uploaded zip fails, before anything is
    written, exactly when some entry fails the string-prefix containment
    test of its resolved join against the resolved destination; when every
    entry passes, the result drops the zip file itself, contains a file at
    the sanitised relative name of every file entry, and adds nothing
    outside the input subtree. The original claim fails only in that the
    string-prefix test is weaker than real containment: an entry whose
    resolved target falls outside the destination but extends its name as a
    string prefix is accepted, not rejected. -/
theorem ingest_zip_containment (jobRoot : FPath) (files : Files) (zipPath : FPath)
    (entries : List (String × Bytes)) :
    (ingest_zip jobRoot files zipPath entries = .error "Unsafe ZIP entry detected" ↔
      ¬ (entries.all (fun eb =>
          strStarts (pathStr (resolveComps (pyJoin (jobRoot ++ ["input"]) eb.1)))
            (pathStr (resolveComps (jobRoot ++ ["input"])))) = true)) ∧
    (∀ files2, ingest_zip jobRoot files zipPath entries = .ok files2 →
      (∀ b, (zipPath, b) ∉ files2) ∧
      (∀ eb ∈ entries, strEnds eb.1 "/" = false →
        ["input"] ++ sanitizeParts eb.1 ≠ zipPath →
        ∃ b, ((["input"] ++ sanitizeParts eb.1 : FPath), b) ∈ files2) ∧
      (∀ f ∈ files2, f ∈ files ∨ (["input"] : FPath) <+: f.1)) := by
  unfold ingest_zip extract_zip
  by_cases hall : entries.all (fun eb =>
      strStarts (pathStr (resolveComps (pyJoin (jobRoot ++ ["input"]) eb.1)))
        (pathStr (resolveComps (jobRoot ++ ["input"])))) = true
  · rw [if_pos hall]
    constructor
    · constructor
      · intro h; exact absurd h (by simp)
      · intro h; exact absurd hall h
    · intro files2 h
      simp only [Except.ok.injEq] at h
      subst h
      refine ⟨?_, ?_, ?_⟩
      · intro b hb
        have := (List.mem_filter.mp hb).2
        simp at this
      · intro eb hmem hnd hne
        have hk : hasKey (entries.foldl (zipWrite ["input"]) files)
            (["input"] ++ sanitizeParts eb.1) = true :=
          hasKey_zipFold ["input"] entries files eb hmem hnd
        obtain ⟨b, hb⟩ := hasKey_exists_mem hk
        refine ⟨b, List.mem_filter.mpr ⟨hb, ?_⟩⟩
        simp only [Bool.not_eq_eq_eq_not, Bool.not_true, beq_eq_false_iff_ne, ne_eq]
        simpa using hne
      · intro f hf
        exact mem_zipFold ["input"] entries files f (List.mem_filter.mp hf).1
  · rw [if_neg hall]
    constructor
    · constructor
      · intro _; exact hall
      · intro _; rfl
    · intro files2 h
      exact absurd h (by simp)

/-- Witness for the amended C2 theorem: a benign archive with one directory
    entry and one file entry is fully extracted below the input subtree and
    the uploaded zip itself is removed. -/
theorem ingest_zip_containment_witness :
    (∀ b, ((["input", "arc.zip"] : FPath), b) ∉
        [((["input", "d", "a.txt"] : FPath), ([5] : Bytes))]) ∧
    (∃ b, ((["input", "d", "a.txt"] : FPath), b) ∈
        [((["input", "d", "a.txt"] : FPath), ([5] : Bytes))]) := by
  have h := (ingest_zip_containment ["tmp", "jobs", "j3"]
      [(["input", "arc.zip"], [1])] ["input", "arc.zip"]
      [("d/", [0]), ("d/a.txt", [5])]).2
      [(["input", "d", "a.txt"], [5])] rfl
  exact ⟨h.1, h.2.1 ("d/a.txt", [5]) (by simp) (by decide) (by decide)⟩

/-- C2 is refuted as stated: a zip entry whose resolved target is the sibling
    directory input_evil of the destination input falls outside the
    destination, yet it passes the string-prefix check, the expansion
    succeeds, and the entry is written. -/
theorem ingest_zip_sibling_cex :
    ¬ (resolveComps (["tmp", "jobs", "j2"] ++ ["input"]) <+:
        resolveComps (pyJoin (["tmp", "jobs", "j2"] ++ ["input"]) "../input_evil/x")) ∧
    strStarts (pathStr (resolveComps (pyJoin (["tmp", "jobs", "j2"] ++ ["input"]) "../input_evil/x")))
      (pathStr (resolveComps (["tmp", "jobs", "j2"] ++ ["input"]))) = true ∧
    ingest_zip ["tmp", "jobs", "j2"] [(["input", "up.zip"], [9])] ["input", "up.zip"]
      [("../input_evil/x", [7])] =
      .ok [(["input", "input_evil", "x"], [7])] := by
  refine ⟨by decide, by decide, rfl⟩

-- ## app/jobs.py job store

/-- C8 (amended): when the workspace still exists, touch sets the metadata
    timestamp to the current time and doing it twice leaves the same state
    as doing it once; but when the workspace has vanished concurrently the
    operation raises FileNotFoundError instead of failing silently, which
    is the single point where the original claim fails. -/
theorem touch_meta_spec (now : Int) (s : MetaState) :
    ((s.metaMtime.isSome = true ∨ s.rootExists = true) →
      touch_meta now s = .ok { s with metaMtime := some now } ∧
      touch_meta now { s with metaMtime := some now } =
        .ok { s with metaMtime := some now }) ∧
    (s.metaMtime = none → s.rootExists = false →
      touch_meta now s = .error .fileNotFoundError) := by
  constructor
  · intro h
    constructor
    · unfold touch_meta
      cases hm : s.metaMtime with
      | some t => rfl
      | none =>
        rcases h with h | h
        · rw [hm] at h; simp at h
        · simp [h]
    · rfl
  · intro h1 h2
    unfold touch_meta
    rw [h1]
    simp [h2]

/-- Witness for the amended C8 theorem: touching an existing workspace with
    no metadata file creates it with the current timestamp, and a second
    touch at the same time changes nothing. -/
theorem touch_meta_spec_witness :
    touch_meta 7 ⟨true, none⟩ = .ok ⟨true, some 7⟩ ∧
    touch_meta 7 ⟨true, some 7⟩ = .ok ⟨true, some 7⟩ :=
  (touch_meta_spec 7 ⟨true, none⟩).1 (Or.inr rfl)

/-- C8 is refuted as stated: with the job workspace vanished, touch raises
    FileNotFoundError from the metadata write instead of failing silently. -/
theorem touch_meta_vanished_cex :
    touch_meta 5 ⟨false, none⟩ = .error .fileNotFoundError ∧
    (MetaState.mk false none).rootExists = false := ⟨rfl, rfl⟩

/-- C9: one sweep removes exactly the job directories whose effective
    last-access time, metadata timestamp if present else directory mtime,
    is strictly older than now minus ttl and whose handling raises no
    error; it retains every other directory, in particular every one
    touched at or after the cutoff; it returns the number removed; and a
    per-job error leaves that job in place while the sweep continues over
    the rest. -/
theorem cleanup_jobs_spec (now ttl : Int) (jobs : List SweepJob) :
    cleanup_jobs now ttl jobs =
      ((jobs.filter (fun j => !j.statFails && decide (jobTs j < now - ttl))).length,
       jobs.filter (fun j => j.statFails || !(decide (jobTs j < now - ttl)))) := by
  unfold cleanup_jobs
  suffices h : ∀ (l : List SweepJob) (n : Nat) (acc : List SweepJob),
      l.foldl (fun acc j =>
        if j.statFails then (acc.1, acc.2 ++ [j])
        else if jobTs j < now - ttl then (acc.1 + 1, acc.2)
        else (acc.1, acc.2 ++ [j])) (n, acc) =
      (n + (l.filter (fun j => !j.statFails && decide (jobTs j < now - ttl))).length,
       acc ++ l.filter (fun j => j.statFails || !(decide (jobTs j < now - ttl)))) by
    rw [h jobs 0 []]
    simp
  intro l
  induction l with
  | nil => intro n acc; simp
  | cons a rest ih =>
    intro n acc
    rw [List.foldl_cons]
    by_cases hs : a.statFails
    · simp only [hs, if_true, List.filter_cons, Bool.not_true, Bool.false_and,
        Bool.true_or, if_false, if_true]
      rw [ih]
      simp
    · by_cases hlt : jobTs a < now - ttl
      · simp only [hs, hlt, if_true, if_false, List.filter_cons]
        rw [ih]
        simp [hs, hlt, Nat.add_assoc, Nat.add_comm 1]
      · simp only [hs, hlt, if_false, List.filter_cons]
        rw [ih]
        simp [hs, hlt]

-- ## External tools (app/utils.py run_cmd and the processor environment)

lemma resolveGo_append (l1 l2 : List String) :
    ∀ acc, resolveGo acc (l1 ++ l2) = resolveGo (resolveGo acc l1) l2 := by
  induction l1 with
  | nil => intro acc; simp [resolveGo]
  | cons a rest ih =>
    intro acc
    rw [List.cons_append, resolveGo, resolveGo]
    by_cases h1 : a = "" || a = "."
    · rw [if_pos h1, if_pos h1, ih]
    · rw [if_neg h1, if_neg h1]
      by_cases h2 : a = ".."
      · rw [if_pos h2, if_pos h2, ih]
      · rw [if_neg h2, if_neg h2, ih]

lemma resolveGo_noparent (l : List String) :
    ∀ acc, ".." ∉ l →
      resolveGo acc l = acc ++ l.filter (fun c => !(c == "" || c == ".")) := by
  induction l with
  | nil => intro acc _; simp [resolveGo]
  | cons a rest ih =>
    intro acc h
    have ha : a ≠ ".." := fun hc => h (by simp [hc])
    have hrest : ".." ∉ rest := fun hc => h (by simp [hc])
    rw [resolveGo]
    by_cases h1 : a = "" ∨ a = "."
    · rw [if_pos (by simpa using h1), ih acc hrest, List.filter_cons]
      have hflt : (!(a == "" || a == ".")) = false := by
        rcases h1 with h | h <;> simp [h]
      rw [hflt]
      simp
    · rw [if_neg (by simpa using h1), if_neg (by simpa using ha), ih _ hrest,
        List.filter_cons]
      push_neg at h1
      have hflt : (!(a == "" || a == ".")) = true := by simp [h1.1, h1.2]
      rw [hflt]
      simp

/-- Resolving a well-formed base extended by a parent-free raw component
    split yields the base followed by the filtered parts. -/
lemma resolve_base_split (R : List String) (s : String)
    (hR : ∀ c ∈ R, c ≠ "" ∧ c ≠ "." ∧ c ≠ "..")
    (hs : ".." ∉ splitSlash s) :
    resolveComps (R ++ splitSlash s) = R ++ pyPartsL s := by
  unfold resolveComps
  rw [resolveGo_append, resolveGo_good R [] hR]
  simp only [List.nil_append]
  rw [resolveGo_noparent _ _ hs]
  rfl

lemma joinComps_cons (a : String) (l : List String) :
    joinComps (a :: l) = if l = [] then a else a ++ "/" ++ joinComps l := by
  cases l with
  | nil => simp [joinComps]
  | cons b t => simp [joinComps]

lemma joinComps_append_ne (R parts : List String) (hR : R ≠ []) (hp : parts ≠ []) :
    joinComps (R ++ parts) = joinComps R ++ "/" ++ joinComps parts := by
  induction R with
  | nil => exact absurd rfl hR
  | cons a rest ih =>
    rw [List.cons_append, joinComps_cons, joinComps_cons a rest]
    by_cases hr : rest = []
    · subst hr
      rw [if_pos rfl, if_neg (by simpa using hp)]
      simp
    · rw [if_neg (by simp [hr]), if_neg hr, ih hr]
      simp [String.append_assoc]

lemma strStarts_refl (s : String) : strStarts s s = true := by
  unfold strStarts
  exact List.isPrefixOf_iff_prefix.mpr (List.prefix_refl _)

lemma strStarts_append (s t : String) : strStarts (s ++ t) s = true := by
  unfold strStarts
  rw [String.data_append]
  exact List.isPrefixOf_iff_prefix.mpr ⟨t.data, rfl⟩

/-- The path string of an extended component list starts with the path
    string of the base component list. -/
lemma strStarts_pathStr_append (R parts : List String) :
    strStarts (pathStr (R ++ parts)) (pathStr R) = true := by
  cases hp : parts with
  | nil => simp [strStarts_refl]
  | cons b t =>
    cases hR : R with
    | nil =>
      simp only [List.nil_append, pathStr, joinComps]
      have h0 : ("/" : String) ++ "" = "/" := rfl
      rw [h0]
      exact strStarts_append "/" (joinComps (b :: t))
    | cons a r =>
      rw [pathStr, pathStr, joinComps_append_ne (a :: r) (b :: t) (by simp) (by simp),
        ← String.append_assoc, ← String.append_assoc, String.append_assoc ("/" ++ joinComps (a :: r))]
      exact strStarts_append _ _

lemma ensure_ok_inv {p q : String} (h : ensure_safe_relpath p = .ok q) :
    q = pyStrip p ∧ q ≠ "" ∧ strStarts q "/" = false ∧
    (pyPartsL q).contains ".." = false := by
  unfold ensure_safe_relpath at h
  by_cases h1 : pyStrip p = ""
  · rw [if_pos h1] at h
    exact absurd h (by simp)
  · rw [if_neg h1] at h
    by_cases h2 : (!(safeMatch (pyStrip p)) || strStarts (pyStrip p) "/" ||
        (pyPartsL (pyStrip p)).contains "..") = true
    · rw [if_pos h2] at h
      exact absurd h (by simp)
    · rw [if_neg h2] at h
      simp only [Except.ok.injEq] at h
      have hq : q = pyStrip p := h.symm
      have h2f : (!(safeMatch (pyStrip p)) || strStarts (pyStrip p) "/" ||
          (pyPartsL (pyStrip p)).contains "..") = false := by
        simpa using h2
      rcases Bool.or_eq_false_iff.mp h2f with ⟨h3, h4⟩
      rcases Bool.or_eq_false_iff.mp h3 with ⟨_, h5⟩
      refine ⟨hq, ?_, ?_, ?_⟩ <;> rw [hq] <;> assumption

lemma parent_notin_split {s : String} (h : (pyPartsL s).contains ".." = false) :
    ".." ∉ splitSlash s := by
  intro hm
  exact not_mem_of_contains_false h (List.mem_filter.mpr ⟨hm, by decide⟩)

lemma allow_empty_inv {p q : String} (h : ensure_safe_relpath_allow_empty p = .ok q) :
    q = "" ∨ ensure_safe_relpath p = .ok q := by
  unfold ensure_safe_relpath_allow_empty at h
  by_cases hp : p = ""
  · rw [if_pos hp] at h
    simp only [Except.ok.injEq] at h
    exact Or.inl h.symm
  · right
    rwa [if_neg hp] at h

lemma resolveComps_good (l : List String)
    (h : ∀ c ∈ l, c ≠ "" ∧ c ≠ "." ∧ c ≠ "..") : resolveComps l = l := by
  unfold resolveComps
  rw [resolveGo_good l [] h]
  simp

-- ## C3: the output subtree is replaced wholesale by every processing run

/-- C3: a processing run first deletes and recreates the output subtree, so
    its result, both the final file state with its output subtree and the
    collected logs, is the same whether or not anything was present below
    output beforehand: running on the job equals running on the job with
    the output subtree already emptied, hence nothing from an earlier run
    can persist into the response unless reproduced from the current
    input. -/
theorem process_job_output_replacement (env : Env) (jobRoot : FPath) (mode : Mode)
    (th : Bool) (q : PackQuery) (j : Job) :
    process_job env jobRoot mode th q j =
      process_job env jobRoot mode th q ⟨j.rootExists, removeSubtree j.files ["output"]⟩ := by
  have h : removeSubtree (removeSubtree j.files ["output"]) ["output"] =
      removeSubtree j.files ["output"] := by
    unfold removeSubtree
    rw [List.filter_filter]
    congr 1
    funext f
    exact Bool.and_self _
  simp only [process_job]
  rw [h]

-- ## C5: timeouts propagate as exceptions (code bug)

/-- C5 is a code bug, evaluated at the failing input: an invocation that
    exceeds its wall-clock timeout makes subprocess.run raise
    TimeoutExpired, which runCmd and every caller leave uncaught, so the
    auto request aborts with the exception, no timeout log line is
    recorded, and the remaining modes never run; whereas the same request
    with a plain non-zero exit is logged and completes as a success
    response, as the claim describes. -/
theorem runCmd_timeout_aborts :
    runCmd RunOutcome.timedOut = .error PyExc.timeoutExpired ∧
    process_job envTimeout ["tmp", "j5"] Mode.auto false qDefault jobT5 =
      .error (HErr.exc PyExc.timeoutExpired) ∧
    (∃ r, process_job envExitFail ["tmp", "j5"] Mode.auto false qDefault jobT5 = .ok r ∧
      "[unrpa] failed (1) for b.rpa" ∈ r.2) := by
  refine ⟨rfl, rfl, ⟨_, rfl, ?_⟩⟩
  decide

-- ## C7: the self-move rejection

/-- C7 is refuted as stated: moving the directory abc to the sibling name
    abcd, which is not the source and not inside it, is rejected with the
    invalid-move error because the resolved destination string extends the
    resolved source string. -/
theorem fs_move_sibling_cex :
    fs_move ["tmp", "j7"] ["output"] true [(["output", "abc", "f.txt"], [0])]
      "abc" "abcd" false = .error MoveErr.invalidMove ∧
    ¬ ((["output", "abc"] : FPath) <+: (["output", "abcd"] : FPath)) ∧
    (["output", "abcd"] : FPath) ≠ ["output", "abc"] := by
  exact ⟨rfl, by decide, by decide⟩

/-- C7 (amended): with validated source and destination paths on an
    existing side and an existing source, the move is rejected with the
    invalid-move error exactly when the source is a directory and the
    resolved destination path string begins with the resolved source path
    string; besides the destination being the source or lying inside it,
    this also rejects a sibling destination whose name extends the source
    name as a string prefix, the case the original claim excluded. -/
theorem fs_move_invalidMove_iff (jobRoot sideRel : FPath) (files : Files)
    (srcS dstS : String) (ow : Bool) (sr dr : String)
    (hgood : ∀ c ∈ jobRoot ++ sideRel, c ≠ "" ∧ c ≠ "." ∧ c ≠ "..")
    (hs : ensure_safe_relpath srcS = .ok sr)
    (hd : ensure_safe_relpath dstS = .ok dr)
    (hex : existsAt files (sideRel ++ pyPartsL sr) = true) :
    fs_move jobRoot sideRel true files srcS dstS ow = .error .invalidMove ↔
      (isDirAt files (sideRel ++ pyPartsL sr) = true ∧
       strStarts (pathStr (jobRoot ++ sideRel ++ pyPartsL dr))
         (pathStr (jobRoot ++ sideRel ++ pyPartsL sr)) = true) := by
  obtain ⟨_, _, _, hsC⟩ := ensure_ok_inv hs
  obtain ⟨_, _, _, hdC⟩ := ensure_ok_inv hd
  have hres_s : resolveComps (jobRoot ++ sideRel ++ splitSlash sr) =
      (jobRoot ++ sideRel) ++ pyPartsL sr :=
    resolve_base_split (jobRoot ++ sideRel) sr hgood (parent_notin_split hsC)
  have hres_d : resolveComps (jobRoot ++ sideRel ++ splitSlash dr) =
      (jobRoot ++ sideRel) ++ pyPartsL dr :=
    resolve_base_split (jobRoot ++ sideRel) dr hgood (parent_notin_split hdC)
  have hbase : resolveComps (jobRoot ++ sideRel) = jobRoot ++ sideRel :=
    resolveComps_good _ hgood
  simp only [fs_move, hs, hd]
  rw [hres_s, hres_d, hbase]
  rw [if_neg (by decide)]
  rw [if_neg (by
    rw [strStarts_pathStr_append (jobRoot ++ sideRel) (pyPartsL sr), hex]
    decide)]
  rw [if_neg (by
    rw [strStarts_pathStr_append (jobRoot ++ sideRel) (pyPartsL dr)]
    decide)]
  by_cases hc : (isDirAt files (sideRel ++ pyPartsL sr) &&
      strStarts (pathStr ((jobRoot ++ sideRel) ++ pyPartsL dr))
        (pathStr ((jobRoot ++ sideRel) ++ pyPartsL sr))) = true
  · rw [if_pos hc]
    simp only [Bool.and_eq_true] at hc
    simp only [List.append_assoc] at hc
    simp [hc.1, hc.2]
  · rw [if_neg hc]
    constructor
    · intro hcontra
      split at hcontra
      · exact absurd hcontra (by simp)
      · exact absurd hcontra (by simp)
    · intro hcond
      exfalso
      apply hc
      rw [Bool.and_eq_true]
      refine ⟨hcond.1, ?_⟩
      have h2 := hcond.2
      simp only [List.append_assoc] at h2 ⊢
      exact h2

/-- Witness for the amended C7 theorem: a destination strictly inside the
    source directory is rejected with the invalid-move error. -/
theorem fs_move_invalidMove_iff_witness :
    fs_move ["tmp", "j7w"] ["output"] true [(["output", "abc", "f.txt"], [0])]
      "abc" "abc/sub" false = .error MoveErr.invalidMove :=
  (fs_move_invalidMove_iff ["tmp", "j7w"] ["output"]
      [(["output", "abc", "f.txt"], [0])] "abc" "abc/sub" false "abc" "abc/sub"
      (by decide) rfl rfl (by decide)).mpr ⟨by decide, by decide⟩

-- ## Lemmas about staging

lemma mem_hasKey {files : Files} {p : FPath} {b : Bytes} (h : (p, b) ∈ files) :
    hasKey files p = true := by
  unfold hasKey
  rw [List.any_eq_true]
  exact ⟨(p, b), h, by simp⟩

lemma mem_setFile_preserve {files : Files} {p : FPath} {b : Bytes} (q : FPath) (c : Bytes)
    (h : (p, b) ∈ files) (hne : p ≠ q) : (p, b) ∈ setFile files q c := by
  unfold setFile
  exact List.mem_append.mpr (Or.inl (List.mem_filter.mpr ⟨h, by simp [hne]⟩))

lemma stageFold_cons (d : FPath) (a : FPath × Bytes) (rest : List (FPath × Bytes))
    (fs : Files) :
    stageFold d (a :: rest) fs = stageFold d rest (setFile fs (d ++ a.1) a.2) := by
  unfold stageFold
  rw [List.foldl_cons]

lemma hasKey_stageFold_mono (d : FPath) (src : List (FPath × Bytes)) :
    ∀ fs q, hasKey fs q = true → hasKey (stageFold d src fs) q = true := by
  induction src with
  | nil => intro fs q h; exact h
  | cons a rest ih =>
    intro fs q h
    rw [stageFold_cons]
    exact ih _ _ (hasKey_setFile_mono _ _ h)

lemma hasKey_stageFold_mem (d : FPath) (src : List (FPath × Bytes)) :
    ∀ fs rb, rb ∈ src → hasKey (stageFold d src fs) (d ++ rb.1) = true := by
  induction src with
  | nil => intro fs rb h; simp at h
  | cons a rest ih =>
    intro fs rb hmem
    rw [stageFold_cons]
    rcases List.mem_cons.mp hmem with h | h
    · subst h
      exact hasKey_stageFold_mono d rest _ _ (hasKey_setFile_self _ _ _)
    · exact ih _ rb h

lemma mem_stageFold (d : FPath) (src : List (FPath × Bytes)) :
    ∀ fs f, f ∈ stageFold d src fs → f ∈ fs ∨ ∃ rb ∈ src, f = (d ++ rb.1, rb.2) := by
  induction src with
  | nil => intro fs f h; exact Or.inl h
  | cons a rest ih =>
    intro fs f h
    rw [stageFold_cons] at h
    rcases ih _ f h with h2 | h2
    · rcases mem_setFile h2 with h3 | h3
      · exact Or.inl h3
      · exact Or.inr ⟨a, by simp, h3⟩
    · obtain ⟨rb, hrb, heq⟩ := h2
      exact Or.inr ⟨rb, by simp [hrb], heq⟩

lemma mem_stageFold_preserve (d : FPath) (src : List (FPath × Bytes)) :
    ∀ fs p b, (p, b) ∈ fs → ¬(d <+: p) → (p, b) ∈ stageFold d src fs := by
  induction src with
  | nil => intro fs p b h _; exact h
  | cons a rest ih =>
    intro fs p b h hnd
    rw [stageFold_cons]
    refine ih _ p b (mem_setFile_preserve _ _ h ?_) hnd
    intro hq
    exact hnd (hq ▸ ⟨a.1, rfl⟩)

lemma subtreeRel_mem {files : Files} {d rel : FPath} {b : Bytes}
    (h : (rel, b) ∈ subtreeRel files d) :
    rel ≠ [] ∧ (d ++ rel, b) ∈ files := by
  unfold subtreeRel at h
  obtain ⟨f, hf, heq⟩ := List.mem_filterMap.mp h
  by_cases hc : (d.isPrefixOf f.1 && !(f.1 == d)) = true
  · rw [if_pos hc] at heq
    simp only [Option.some.injEq, Prod.mk.injEq] at heq
    obtain ⟨hrel, hb⟩ := heq
    simp only [Bool.and_eq_true, Bool.not_eq_eq_eq_not, Bool.not_true,
      beq_eq_false_iff_ne, ne_eq] at hc
    obtain ⟨t, ht⟩ := List.isPrefixOf_iff_prefix.mp hc.1
    have hdrop : f.1.drop d.length = t := by
      rw [← ht, List.drop_left]
    have hrt : rel = t := by rw [← hrel, hdrop]
    constructor
    · intro hnil
      apply hc.2
      rw [← ht, ← hrt, hnil, List.append_nil]
    · have hfeq : (d ++ rel, b) = f := by
        rw [hrt, ht, ← hb]
      rw [hfeq]
      exact hf
  · rw [if_neg hc] at heq
    simp at heq

lemma sideComps_good (w : Side) (c : String) (hc : c ∈ sideComps w) :
    c ≠ "" ∧ c ≠ "." ∧ c ≠ ".." := by
  cases w <;> simp [sideComps] at hc <;> subst hc <;>
    exact ⟨by decide, by decide, by decide⟩

/-- After clearing and restaging, nothing exists at a requested archive path
    that is non-empty, does not descend into the staging directory, and had
    nothing at or below it beforehand. -/
lemma staged_no_archive (files : Files) (sourceRel : FPath) (nameParts : FPath)
    (hname : nameParts ≠ []) (hname2 : nameParts.head? ≠ some "_packroot")
    (hclean : ∀ f ∈ files, ¬((["output"] ++ nameParts : FPath) <+: f.1)) :
    existsAt (stageFold ["output", "_packroot"]
      (subtreeRel (removeSubtree files ["output", "_packroot"]) sourceRel)
      (removeSubtree files ["output", "_packroot"])) (["output"] ++ nameParts) = false := by
  have hA : ∀ f ∈ stageFold ["output", "_packroot"]
      (subtreeRel (removeSubtree files ["output", "_packroot"]) sourceRel)
      (removeSubtree files ["output", "_packroot"]),
      ¬((["output"] ++ nameParts : FPath) <+: f.1) := by
    intro f hf hpre
    rcases mem_stageFold _ _ _ f hf with h | ⟨rb, _, heq⟩
    · exact hclean f (List.mem_filter.mp h).1 hpre
    · cases hnp : nameParts with
      | nil => exact hname hnp
      | cons n0 nt =>
        rw [heq, hnp] at hpre
        simp only [List.singleton_append, List.cons_append] at hpre
        have h1 : n0 :: nt <+: "_packroot" :: rb.1 :=
          (List.cons_prefix_cons.mp hpre).2
        have hn0 : n0 = "_packroot" := (List.cons_prefix_cons.mp h1).1
        apply hname2
        rw [hnp, hn0]
        rfl
  have hkey : hasKey (stageFold ["output", "_packroot"]
      (subtreeRel (removeSubtree files ["output", "_packroot"]) sourceRel)
      (removeSubtree files ["output", "_packroot"])) (["output"] ++ nameParts) = false := by
    cases hk : hasKey (stageFold ["output", "_packroot"]
        (subtreeRel (removeSubtree files ["output", "_packroot"]) sourceRel)
        (removeSubtree files ["output", "_packroot"])) (["output"] ++ nameParts) with
    | false => rfl
    | true =>
      obtain ⟨b, hb⟩ := hasKey_exists_mem hk
      exact absurd (List.prefix_refl _) (hA _ hb)
  have hany : (stageFold ["output", "_packroot"]
      (subtreeRel (removeSubtree files ["output", "_packroot"]) sourceRel)
      (removeSubtree files ["output", "_packroot"])).any
        (fun f => (["output"] ++ nameParts : FPath).isPrefixOf f.1 &&
          !(f.1 == (["output"] ++ nameParts : FPath))) = false := by
    rw [List.any_eq_false]
    intro f hf
    simp only [Bool.and_eq_true, not_and]
    intro hpre
    exact absurd (List.isPrefixOf_iff_prefix.mp hpre) (hA f hf)
  unfold existsAt isDirAt
  rw [hkey, hany]
  cases hnp : nameParts with
  | nil => exact absurd hnp hname
  | cons n0 nt => simp

/-- With an unparsable key, pack stages the copy, reaches the key parse, and
    returns the staged state, no archive, and the invalid-key log line. -/
lemma pack_invalid_key_core (env : Env) (jobRoot : FPath) (files : Files)
    (sourceRel : FPath) (name : String) (ver : Int) (key : String) (pad : Int)
    (hkey : pyIntHex key = none)
    (hsrc : isDirAt files sourceRel = true)
    (hstage : subtreeRel (removeSubtree files ["output", "_packroot"]) sourceRel ≠ [])
    (hclean : ∀ f ∈ files, ¬((["output"] ++ pyPartsL name : FPath) <+: f.1))
    (hname : pyPartsL name ≠ [])
    (hname2 : (pyPartsL name).head? ≠ some "_packroot") :
    pack_rpa_from_dir env jobRoot files sourceRel name ver key pad =
      .ok (stageFold ["output", "_packroot"]
            (subtreeRel (removeSubtree files ["output", "_packroot"]) sourceRel)
            (removeSubtree files ["output", "_packroot"]), none,
        ["[pack] Invalid key_hex: " ++ pyRepr key ++ " (expected hex like 0x1234)"]) := by
  have hentries : topNames (stageFold ["output", "_packroot"]
      (subtreeRel (removeSubtree files ["output", "_packroot"]) sourceRel)
      (removeSubtree files ["output", "_packroot"])) ["output", "_packroot"] ≠ [] := by
    obtain ⟨rb, hrb⟩ := List.exists_mem_of_ne_nil _ hstage
    have hk : hasKey (stageFold ["output", "_packroot"]
        (subtreeRel (removeSubtree files ["output", "_packroot"]) sourceRel)
        (removeSubtree files ["output", "_packroot"])) (["output", "_packroot"] ++ rb.1) =
        true := hasKey_stageFold_mem _ _ _ rb hrb
    obtain ⟨b, hb⟩ := hasKey_exists_mem hk
    have hne := (subtreeRel_mem hrb).1
    apply List.ne_nil_of_mem (a := (["output", "_packroot"] ++ rb.1).drop 2 |>.head?.getD "")
    unfold topNames
    apply List.mem_dedup.mpr
    apply List.mem_filterMap.mpr
    refine ⟨(["output", "_packroot"] ++ rb.1, b), hb, ?_⟩
    rw [if_pos (List.isPrefixOf_iff_prefix.mpr ⟨rb.1, rfl⟩)]
    show (List.drop 2 (["output", "_packroot"] ++ rb.1)).head? = _
    cases hc : rb.1 with
    | nil => exact absurd hc hne
    | cons x xs => simp
  have hea := staged_no_archive files sourceRel (pyPartsL name) hname hname2 hclean
  unfold pack_rpa_from_dir
  rw [hsrc]
  rw [if_neg (by decide)]
  rw [if_neg hentries]
  simp only [hea, Bool.false_eq_true, if_false, hkey]

/-- C6 is refuted as stated: a repack request with the unparsable key 0xZZZZ
    returns a success response recording the invalid key as a log line; it
    does not fail with an error response. No archive file is created at the
    requested name, as the claim also says. -/
theorem repack_invalid_key_cex :
    repack_job envOk ["tmp", "j6"] ⟨Side.input, "", "repacked.rpa", 3, "0xZZZZ", 0⟩
      ⟨true, [(["input", "g", "a.txt"], [3])]⟩ =
      .ok ([(["input", "g", "a.txt"], [3]),
            (["output", "_packroot", "g", "a.txt"], [3])],
        ["[pack] Invalid key_hex: " ++ pyRepr "0xZZZZ" ++ " (expected hex like 0x1234)"]) ∧
    pyIntHex "0xZZZZ" = none ∧
    (∀ b, ((["output", "repacked.rpa"] : FPath), b) ∉
      [((["input", "g", "a.txt"] : FPath), ([3] : Bytes)),
       ((["output", "_packroot", "g", "a.txt"] : FPath), ([3] : Bytes))]) := by
  refine ⟨rfl, rfl, by intro b; simp⟩

/-- C6 (amended): a pack or repack request whose key string does not parse
    as a hexadecimal integer is not an error response: provided the source
    directory exists with at least one file to stage and the requested
    archive name is an ordinary fresh name, the request succeeds, its logs
    record the invalid key, and no archive file is created at the requested
    name in the output subtree. -/
theorem repack_invalid_key (env : Env) (jobRoot : FPath) (q : PackQuery) (j : Job)
    (rel : String)
    (hroot : j.rootExists = true)
    (hjr : ∀ c ∈ jobRoot, c ≠ "" ∧ c ≠ "." ∧ c ≠ "..")
    (hkey : pyIntHex q.pack_key_hex = none)
    (hrel : ensure_safe_relpath_allow_empty q.pack_source_path = .ok rel)
    (hsrc : isDirAt j.files (sideComps q.pack_source_where ++ pyPartsL rel) = true)
    (hstage : subtreeRel (removeSubtree j.files ["output", "_packroot"])
        (sideComps q.pack_source_where ++ pyPartsL rel) ≠ [])
    (hclean : ∀ f ∈ j.files, ¬((["output"] ++ pyPartsL q.pack_name : FPath) <+: f.1))
    (hname : pyPartsL q.pack_name ≠ [])
    (hname2 : (pyPartsL q.pack_name).head? ≠ some "_packroot") :
    ∃ files2 logs, repack_job env jobRoot q j = .ok (files2, logs) ∧
      (∀ b, ((["output"] ++ pyPartsL q.pack_name : FPath), b) ∉ files2) ∧
      (∃ m ∈ logs, strStarts m "[pack] Invalid key_hex:" = true) := by
  have hbgood : ∀ c ∈ jobRoot ++ sideComps q.pack_source_where,
      c ≠ "" ∧ c ≠ "." ∧ c ≠ ".." := by
    intro c hc
    rcases List.mem_append.mp hc with h | h
    · exact hjr c h
    · exact sideComps_good q.pack_source_where c h
  have hsplit : ".." ∉ splitSlash rel := by
    rcases allow_empty_inv hrel with h | h
    · rw [h]; decide
    · exact parent_notin_split (ensure_ok_inv h).2.2.2
  have hres := resolve_base_split (jobRoot ++ sideComps q.pack_source_where) rel
    hbgood hsplit
  have hbase := resolveComps_good (jobRoot ++ sideComps q.pack_source_where) hbgood
  have hcore := pack_invalid_key_core env jobRoot j.files
    (sideComps q.pack_source_where ++ pyPartsL rel) q.pack_name q.pack_version
    q.pack_key_hex q.pack_padding hkey hsrc hstage hclean hname hname2
  refine ⟨stageFold ["output", "_packroot"]
      (subtreeRel (removeSubtree j.files ["output", "_packroot"])
        (sideComps q.pack_source_where ++ pyPartsL rel))
      (removeSubtree j.files ["output", "_packroot"]),
    ["[pack] Invalid key_hex: " ++ pyRepr q.pack_key_hex ++
      " (expected hex like 0x1234)"], ?_, ?_, ?_⟩
  · unfold repack_job
    rw [hroot]
    rw [if_neg (by decide)]
    simp only [packBranch, hrel]
    rw [hres, hbase, strStarts_pathStr_append]
    rw [if_neg (by decide)]
    rw [hcore]
    rfl
  · intro b hb
    have hea := staged_no_archive j.files
      (sideComps q.pack_source_where ++ pyPartsL rel) (pyPartsL q.pack_name)
      hname hname2 hclean
    unfold existsAt at hea
    rcases Bool.or_eq_false_iff.mp hea with ⟨_, hk⟩
    rw [mem_hasKey hb] at hk
    exact absurd hk (by simp)
  · refine ⟨"[pack] Invalid key_hex: " ++ pyRepr q.pack_key_hex ++
      " (expected hex like 0x1234)", by simp, ?_⟩
    have h1 : ("[pack] Invalid key_hex: " : String) = "[pack] Invalid key_hex:" ++ " " := rfl
    rw [h1, String.append_assoc, String.append_assoc]
    exact strStarts_append _ _

/-- Witness for the amended C6 theorem at a concrete job and key. -/
theorem repack_invalid_key_witness :
    ∃ files2 logs,
      repack_job envOk ["tmp", "j6w"] ⟨Side.output, "", "out.rpa", 3, "zz", 1⟩
        ⟨true, [(["output", "d", "b.txt"], [4])]⟩ = .ok (files2, logs) ∧
      (∀ b, ((["output", "out.rpa"] : FPath), b) ∉ files2) ∧
      (∃ m ∈ logs, strStarts m "[pack] Invalid key_hex:" = true) := by
  have h := repack_invalid_key envOk ["tmp", "j6w"]
    ⟨Side.output, "", "out.rpa", 3, "zz", 1⟩
    ⟨true, [(["output", "d", "b.txt"], [4])]⟩ ""
    rfl (by decide) rfl rfl (by decide) (by decide)
    (by decide) (by decide) (by decide)
  simpa using h

-- ## C10: the staging directory persists

lemma stageFold_preserve_mem_ne (d : FPath) (src : List (FPath × Bytes)) :
    ∀ fs p b, (p, b) ∈ fs → (∀ rb ∈ src, p ≠ d ++ rb.1) →
      (p, b) ∈ stageFold d src fs := by
  induction src with
  | nil => intro fs p b h _; exact h
  | cons a rest ih =>
    intro fs p b h hne
    rw [stageFold_cons]
    exact ih _ p b (mem_setFile_preserve _ _ h (hne a (by simp)))
      (fun rb hrb => hne rb (by simp [hrb]))

lemma mem_stageFold_of_nodup (d : FPath) (src : List (FPath × Bytes))
    (hnd : (src.map Prod.fst).Nodup) :
    ∀ fs rb, rb ∈ src → ((d ++ rb.1 : FPath), rb.2) ∈ stageFold d src fs := by
  induction src with
  | nil => intro fs rb h; simp at h
  | cons a rest ih =>
    intro fs rb hmem
    rw [List.map_cons] at hnd
    have hnd2 := List.nodup_cons.mp hnd
    rw [stageFold_cons]
    rcases List.mem_cons.mp hmem with h | h
    · subst h
      have hmemset : ((d ++ rb.1 : FPath), rb.2) ∈ setFile fs (d ++ rb.1) rb.2 := by
        unfold setFile
        simp
      refine stageFold_preserve_mem_ne d rest _ _ _ hmemset ?_
      intro rb2 hrb2 heq
      have : rb.1 = rb2.1 := List.append_cancel_left heq
      exact hnd2.1 (this ▸ List.mem_map_of_mem Prod.fst hrb2)
    · exact ih hnd2.2 _ rb h

lemma removeSubtree_of_none {files : Files} {d : FPath}
    (h : ∀ f ∈ files, ¬(d <+: f.1)) : removeSubtree files d = files := by
  unfold removeSubtree
  apply List.filter_eq_self.mpr
  intro f hf
  cases hc : List.isPrefixOf d f.1 with
  | false => rfl
  | true => exact absurd (List.isPrefixOf_iff_prefix.mp hc) (h f hf)

lemma unlink_inv {st : Files} {p : FPath} {Y : Files}
    (h : (if existsAt st p = true then
            (if isDirAt st p = true then Except.error PyExc.isADirectoryError
             else Except.ok (st.filter (fun f => !(f.1 == p))))
          else Except.ok st) = Except.ok Y) :
    Y = st ∨ Y = st.filter (fun f => !(f.1 == p)) := by
  split at h
  · split at h
    · exact absurd h (by simp)
    · simp only [Except.ok.injEq] at h
      exact Or.inr h.symm
  · simp only [Except.ok.injEq] at h
    exact Or.inl h.symm

/-- The shape of a successful pack: the archive path is the output directory
    extended by the name parts, and the final files are the staged state,
    possibly with a pre-existing archive unlinked, plus the written
    archive. -/
lemma pack_ok_some_inv {env : Env} {jobRoot : FPath} {files : Files}
    {sourceRel : FPath} {name : String} {ver : Int} {key : String} {pad : Int}
    {files2 : Files} {outP : FPath} {logs : List String}
    (hp : pack_rpa_from_dir env jobRoot files sourceRel name ver key pad =
      .ok (files2, some outP, logs)) :
    outP = ["output"] ++ pyPartsL name ∧
    ∃ X ab,
      (X = stageFold ["output", "_packroot"]
          (subtreeRel (removeSubtree files ["output", "_packroot"]) sourceRel)
          (removeSubtree files ["output", "_packroot"]) ∨
       X = (stageFold ["output", "_packroot"]
          (subtreeRel (removeSubtree files ["output", "_packroot"]) sourceRel)
          (removeSubtree files ["output", "_packroot"])).filter
            (fun f => !(f.1 == (["output"] ++ pyPartsL name : FPath)))) ∧
      files2 = setFile X (["output"] ++ pyPartsL name) ab := by
  simp only [pack_rpa_from_dir] at hp
  repeat' split at hp
  any_goals (exfalso; simp at hp; done)
  all_goals try tauto
  all_goals simp only [Except.ok.injEq, Prod.mk.injEq, Option.some.injEq] at hp
  all_goals obtain ⟨hfe, houtp, hlogs⟩ := hp
  all_goals rename_i ufiles huk a4 kI hk a5 code out err hv hc aArch ab harch a6
  all_goals rcases unlink_inv huk with hX | hX
  all_goals first
    | exact ⟨houtp.symm, ufiles, harch, Or.inl hX, hfe.symm⟩
    | exact ⟨houtp.symm, ufiles, harch, Or.inr hX, hfe.symm⟩

lemma packroot_in_snapshotDirs {files2 : Files} {rel : FPath} {b : Bytes}
    (h : ((["output", "_packroot"] ++ rel : FPath), b) ∈ files2) (hrel : rel ≠ []) :
    (["_packroot"] : FPath) ∈ snapshotDirs files2 ["output"] := by
  unfold snapshotDirs
  apply List.mem_flatten.mpr
  refine ⟨properAncestors ((["output", "_packroot"] ++ rel : FPath).drop 1), ?_, ?_⟩
  · apply List.mem_map.mpr
    refine ⟨_, h, ?_⟩
    have hpre : (["output"] : FPath).isPrefixOf (["output", "_packroot"] ++ rel) = true :=
      List.isPrefixOf_iff_prefix.mpr ⟨"_packroot" :: rel, rfl⟩
    simp only [hpre, if_true]
    rfl
  · have hdrop : (["output", "_packroot"] ++ rel : FPath).drop 1 = "_packroot" :: rel := rfl
    rw [hdrop]
    unfold properAncestors
    apply List.mem_map.mpr
    refine ⟨0, ?_, rfl⟩
    apply List.mem_range.mpr
    cases rel with
    | nil => exact absurd rfl hrel
    | cons x xs => simp

/-- C10: every successful pack or repack packing step on a non-empty source
    directory stages the source below output/_packroot as byte-for-byte
    copies, leaves the staging directory in place afterwards, and places
    the archive directly in the output subtree; the staging directory
    therefore appears in the returned output tree snapshot and in any later
    one taken of the unchanged state. -/
theorem pack_packroot_persists (env : Env) (jobRoot : FPath) (files : Files)
    (sourceRel : FPath) (name : String) (ver : Int) (key : String) (pad : Int)
    (files2 : Files) (outP : FPath) (logs : List String)
    (hdisj : ∀ f ∈ files, ¬((["output", "_packroot"] : FPath) <+: f.1))
    (hnodup : ((subtreeRel files sourceRel).map Prod.fst).Nodup)
    (hname2 : (pyPartsL name).head? ≠ some "_packroot")
    (hsrcne : subtreeRel files sourceRel ≠ [])
    (hp : pack_rpa_from_dir env jobRoot files sourceRel name ver key pad =
      .ok (files2, some outP, logs)) :
    outP = ["output"] ++ pyPartsL name ∧
    (∀ rb ∈ subtreeRel files sourceRel,
      ((["output", "_packroot"] ++ rb.1 : FPath), rb.2) ∈ files2) ∧
    (["_packroot"] : FPath) ∈ snapshotDirs files2 ["output"] := by
  obtain ⟨houtp, X, ab, hX, hfe⟩ := pack_ok_some_inv hp
  have hclr : removeSubtree files ["output", "_packroot"] = files :=
    removeSubtree_of_none hdisj
  rw [hclr] at hX
  have hneq : ∀ rb : FPath × Bytes,
      (["output", "_packroot"] ++ rb.1 : FPath) ≠ ["output"] ++ pyPartsL name := by
    intro rb heq
    have hcons : ("output" :: "_packroot" :: rb.1 : FPath) =
        "output" :: pyPartsL name := heq
    have h2 : ("_packroot" :: rb.1 : FPath) = pyPartsL name :=
      (List.cons_eq_cons.mp hcons).2
    apply hname2
    rw [← h2]
    rfl
  have hstaged : ∀ rb ∈ subtreeRel files sourceRel,
      ((["output", "_packroot"] ++ rb.1 : FPath), rb.2) ∈ X := by
    intro rb hrb
    have hmem := mem_stageFold_of_nodup ["output", "_packroot"] _ hnodup files rb hrb
    rcases hX with hX | hX
    · rw [hX]
      exact hmem
    · rw [hX]
      apply List.mem_filter.mpr
      refine ⟨hmem, ?_⟩
      simp only [Bool.not_eq_eq_eq_not, Bool.not_true, beq_eq_false_iff_ne, ne_eq]
      exact hneq rb
  have hmain : ∀ rb ∈ subtreeRel files sourceRel,
      ((["output", "_packroot"] ++ rb.1 : FPath), rb.2) ∈ files2 := by
    intro rb hrb
    rw [hfe]
    exact mem_setFile_preserve _ _ (hstaged rb hrb) (hneq rb)
  obtain ⟨rb0, hrb0⟩ := List.exists_mem_of_ne_nil _ hsrcne
  exact ⟨houtp, hmain,
    packroot_in_snapshotDirs (hmain rb0 hrb0) (subtreeRel_mem hrb0).1⟩

/-- Witness for the C10 theorem: a concrete successful pack of a two-file
    input source stages both files below the staging directory and the
    staging directory shows up in the output snapshot. -/
theorem pack_packroot_persists_witness :
    ∃ files2 logs,
      pack_rpa_from_dir envOk ["tmp", "jA"]
        [(["input", "game", "a.txt"], [7]), (["input", "game", "sub", "b.txt"], [8])]
        ["input", "game"] "packed.rpa" 3 "0xDEADBEEF" 0 =
        .ok (files2, some ["output", "packed.rpa"], logs) ∧
      ((["output", "_packroot", "a.txt"] : FPath), ([7] : Bytes)) ∈ files2 ∧
      ((["output", "_packroot", "sub", "b.txt"] : FPath), ([8] : Bytes)) ∈ files2 ∧
      (["_packroot"] : FPath) ∈ snapshotDirs files2 ["output"] := by
  refine ⟨_, _, rfl, ?_⟩
  have h := pack_packroot_persists envOk ["tmp", "jA"]
    [(["input", "game", "a.txt"], [7]), (["input", "game", "sub", "b.txt"], [8])]
    ["input", "game"] "packed.rpa" 3 "0xDEADBEEF" 0 _ _ _
    (by decide) (by decide) (by decide) (by decide) rfl
  exact ⟨h.2.1 (["a.txt"], [7]) (by decide), h.2.1 (["sub", "b.txt"], [8]) (by decide),
    h.2.2⟩

-- ## C4: lemmas relating the mode branches across file states

lemma any_eq_any_filter {α : Type} (l : List α) (q pr : α → Bool)
    (h : ∀ a, pr a = true → q a = true) : l.any pr = (l.filter q).any pr := by
  induction l with
  | nil => rfl
  | cons a rest ih =>
    rw [List.any_cons, List.filter_cons]
    cases hpa : pr a with
    | true =>
      rw [h a hpa]
      simp [hpa]
    | false =>
      cases hqa : q a with
      | true => simp [hpa, ih]
      | false => simp [hpa, ih]

lemma hasKey_congr_inputPart {f1 f2 : Files} (h : inputPart f1 = inputPart f2)
    (p : FPath) (hp : p.head? = some "input") : hasKey f1 p = hasKey f2 p := by
  unfold hasKey
  have hcond : ∀ f : FPath × Bytes, (f.1 == p) = true → (f.1.head? == some "input") = true := by
    intro f hf
    have : f.1 = p := by simpa using hf
    simp [this, hp]
  rw [any_eq_any_filter f1 _ _ hcond, any_eq_any_filter f2 _ _ hcond]
  unfold inputPart at h
  rw [h]

lemma isDirAt_congr_inputPart {f1 f2 : Files} (h : inputPart f1 = inputPart f2)
    (p : FPath) (hp : p.head? = some "input") : isDirAt f1 p = isDirAt f2 p := by
  unfold isDirAt
  have hcond : ∀ f : FPath × Bytes,
      (p.isPrefixOf f.1 && !(f.1 == p)) = true → (f.1.head? == some "input") = true := by
    intro f hf
    simp only [Bool.and_eq_true] at hf
    obtain ⟨t, ht⟩ := List.isPrefixOf_iff_prefix.mp hf.1
    rw [← ht]
    cases hp2 : p with
    | nil => rw [hp2] at hp; simp at hp
    | cons a rest =>
      subst hp2
      simpa using hp
  rw [any_eq_any_filter f1 _ _ hcond, any_eq_any_filter f2 _ _ hcond]
  unfold inputPart at h
  rw [h]

lemma existsAt_congr_inputPart {f1 f2 : Files} (h : inputPart f1 = inputPart f2)
    (p : FPath) (hp : p.head? = some "input") : existsAt f1 p = existsAt f2 p := by
  unfold existsAt
  rw [hasKey_congr_inputPart h p hp, isDirAt_congr_inputPart h p hp]

lemma inputPart_setFile_out (files : Files) (p : FPath) (b : Bytes)
    (hp : p.head? = some "output") : inputPart (setFile files p b) = inputPart files := by
  unfold inputPart setFile
  rw [List.filter_append, List.filter_filter]
  have h1 : List.filter (fun f => (f.1.head? == some "input") && !(f.1 == p)) files =
      List.filter (fun f => f.1.head? == some "input") files := by
    apply List.filter_congr
    intro f _
    cases hf : (f.1.head? == some "input") with
    | false => simp
    | true =>
      have hne : f.1 ≠ p := by
        intro he
        have : f.1.head? = some "input" := by simpa using hf
        rw [he, hp] at this
        simp at this
      simp [hne]
  rw [h1]
  have h2 : List.filter (fun f => f.1.head? == some "input")
      ([(p, b)] : Files) = [] := by
    simp [hp]
  rw [h2, List.append_nil]

lemma inputPart_setFile_out2 (files : Files) (xs : List String) (b : Bytes) :
    inputPart (setFile files ("output" :: xs) b) = inputPart files :=
  inputPart_setFile_out _ _ _ rfl

lemma inputPart_writeFold_out (t : FPath) (ht : t.head? = some "output") :
    ∀ (writes : List (FPath × Bytes)) (fs : Files),
      inputPart (writes.foldl (fun fs rb => setFile fs (t ++ rb.1) rb.2) fs) =
        inputPart fs := by
  obtain ⟨xs, rfl⟩ : ∃ xs, t = "output" :: xs := by
    cases hc : t with
    | nil => rw [hc] at ht; simp at ht
    | cons x xs =>
      rw [hc] at ht
      have : x = "output" := by simpa using ht
      exact ⟨xs, by rw [this]⟩
  intro writes
  induction writes with
  | nil => intro fs; rfl
  | cons a rest ih =>
    intro fs
    rw [List.foldl_cons, ih]
    apply inputPart_setFile_out
    rfl

lemma hasKey_writeFold_mono (t : FPath) :
    ∀ (writes : List (FPath × Bytes)) (fs : Files) (p : FPath),
      hasKey fs p = true →
      hasKey (writes.foldl (fun fs rb => setFile fs (t ++ rb.1) rb.2) fs) p = true := by
  intro writes
  induction writes with
  | nil => intro fs p h; exact h
  | cons a rest ih =>
    intro fs p h
    rw [List.foldl_cons]
    exact ih _ _ (hasKey_setFile_mono _ _ h)

lemma inputPart_applyWrites2 (xs : List String) (W : Files) (fs : Files) :
    inputPart (applyWrites ("output" :: xs) W fs) = inputPart fs :=
  inputPart_writeFold_out ("output" :: xs) rfl W fs

lemma hasKey_applyWrites_mono (t : FPath) (W : Files) (fs : Files) (p : FPath)
    (h : hasKey fs p = true) : hasKey (applyWrites t W fs) p = true :=
  hasKey_writeFold_mono t W fs p h

lemma existsAt_applyWrites_input (xs : List String) (W : Files) (fs : Files)
    (p : FPath) (hp : p.head? = some "input") :
    existsAt (applyWrites ("output" :: xs) W fs) p = existsAt fs p :=
  existsAt_congr_inputPart (inputPart_applyWrites2 xs W fs) p hp

lemma decompile_go_logs (u : String → Bytes → Bool → UnrpycRes) (th : Bool)
    (cands : List (FPath × Bytes)) :
    ∀ f1 f2 p1 p2 logs,
      (decompile_go u th cands f1 p1 logs).2.2 =
      (decompile_go u th cands f2 p2 logs).2.2 := by
  induction cands with
  | nil => intro f1 f2 p1 p2 logs; rfl
  | cons c rest ih =>
    intro f1 f2 p1 p2 logs
    obtain ⟨src, b⟩ := c
    simp only [decompile_go]
    cases u (lastName src) b th with
    | ok lines rpy? =>
      cases rpy? with
      | some rb => exact ih _ _ _ _ _
      | none => exact ih _ _ _ _ _
    | exc m => exact ih _ _ _ _ _

lemma decompile_go_inputPart (u : String → Bytes → Bool → UnrpycRes) (th : Bool)
    (cands : List (FPath × Bytes)) :
    ∀ fs p l, inputPart ((decompile_go u th cands fs p l).1) = inputPart fs := by
  induction cands with
  | nil => intro fs p l; rfl
  | cons c rest ih =>
    intro fs p l
    obtain ⟨src, b⟩ := c
    simp only [decompile_go]
    cases u (lastName src) b th with
    | ok lines rpy? =>
      cases rpy? with
      | some rb =>
        rw [ih]
        rw [inputPart_setFile_out2, inputPart_setFile_out2]
      | none =>
        rw [ih]
        rw [inputPart_setFile_out2]
    | exc m =>
      rw [ih]
      rw [inputPart_setFile_out2]

lemma decompile_go_hasKey (u : String → Bytes → Bool → UnrpycRes) (th : Bool)
    (cands : List (FPath × Bytes)) :
    ∀ fs p l q, hasKey fs q = true →
      hasKey ((decompile_go u th cands fs p l).1) q = true := by
  induction cands with
  | nil => intro fs p l q h; exact h
  | cons c rest ih =>
    intro fs p l q h
    obtain ⟨src, b⟩ := c
    simp only [decompile_go]
    cases u (lastName src) b th with
    | ok lines rpy? =>
      cases rpy? with
      | some rb => exact ih _ _ _ _ (hasKey_setFile_mono _ _ (hasKey_setFile_mono _ _ h))
      | none => exact ih _ _ _ _ (hasKey_setFile_mono _ _ h)
    | exc m => exact ih _ _ _ _ (hasKey_setFile_mono _ _ h)

lemma extract_rpa_go_congr (env : Env) (jr : FPath) (arcs : List FPath) :
    ∀ f1 f2 p1 p2 logs,
      (extract_rpa_go env jr arcs f1 p1 logs).map (fun r => r.2.2) =
      (extract_rpa_go env jr arcs f2 p2 logs).map (fun r => r.2.2) := by
  induction arcs with
  | nil => intro f1 f2 p1 p2 logs; rfl
  | cons arc rest ih =>
    intro f1 f2 p1 p2 logs
    simp only [extract_rpa_go]
    split
    · rfl
    · rename_i trip c o e heq
      by_cases hc : c = 0
      · rw [if_pos hc, if_pos hc]
        exact ih _ _ _ _ _
      · rw [if_neg hc, if_neg hc]
        exact ih _ _ _ _ _

lemma extract_rpa_go_state (env : Env) (jr : FPath) (arcs : List FPath) :
    ∀ fs p l r, extract_rpa_go env jr arcs fs p l = .ok r →
      inputPart r.1 = inputPart fs ∧
      (∀ q, hasKey fs q = true → hasKey r.1 q = true) := by
  induction arcs with
  | nil =>
    intro fs p l r h
    simp only [extract_rpa_go, Except.ok.injEq] at h
    rw [← h]
    exact ⟨rfl, fun q hq => hq⟩
  | cons arc rest ih =>
    intro fs p l r h
    simp only [extract_rpa_go] at h
    split at h
    · exact absurd h (by simp)
    · rename_i trip c o e heq
      by_cases hc : c = 0
      · rw [if_pos hc] at h
        obtain ⟨h1, h2⟩ := ih _ _ _ _ h
        rw [inputPart_applyWrites2] at h1
        exact ⟨h1, fun q hq => h2 q (hasKey_applyWrites_mono _ _ _ _ hq)⟩
      · rw [if_neg hc] at h
        obtain ⟨h1, h2⟩ := ih _ _ _ _ h
        rw [inputPart_applyWrites2] at h1
        exact ⟨h1, fun q hq => h2 q (hasKey_applyWrites_mono _ _ _ _ hq)⟩

lemma existsAt_applyWrites_input2 (xs ys : List String) (W : Files) (fs : Files) :
    existsAt (applyWrites ("output" :: xs) W fs) ("input" :: ys) =
      existsAt fs ("input" :: ys) :=
  existsAt_applyWrites_input xs W fs ("input" :: ys) rfl

lemma extract_rpi_go_congr (env : Env) (jr : FPath) (cmd : String) (rpis : List FPath) :
    ∀ f1 f2 p1 p2 logs, inputPart f1 = inputPart f2 →
      (extract_rpi_go env jr cmd rpis f1 p1 logs).map (fun r => r.2.2) =
      (extract_rpi_go env jr cmd rpis f2 p2 logs).map (fun r => r.2.2) := by
  induction rpis with
  | nil => intro f1 f2 p1 p2 logs hinp; rfl
  | cons rpi rest ih =>
    intro f1 f2 p1 p2 logs hinp
    simp only [extract_rpi_go, rpi_try]
    rcases h : runCmd (env.rpatoolExtractRun [cmd, "-o",
        pathStr (jr ++ ["output", "rpi_extract", stemOf (lastName rpi)]), "-x",
        pathStr (jr ++ rpi)]).1 with e | trip
    · rfl
    · obtain ⟨c, o, er⟩ := trip
      dsimp only
      by_cases hc : c = 0
      · rw [if_pos hc, if_pos hc]
        apply ih
        simp only [inputPart_applyWrites2]
        exact hinp
      · rw [if_neg hc, if_neg hc]
        rw [existsAt_applyWrites_input2, existsAt_applyWrites_input2,
          existsAt_congr_inputPart hinp ("input" :: [stemOf (lastName rpi) ++ ".rpa"]) rfl]
        split
        · rcases h2 : runCmd (env.rpatoolExtractRun [cmd, "-o",
              pathStr (jr ++ ["output", "rpi_extract", stemOf (lastName rpi)]), "-x",
              pathStr (jr ++ ["input", stemOf (lastName rpi) ++ ".rpa"])]).1 with e2 | trip2
          · rfl
          · obtain ⟨c2, o2, er2⟩ := trip2
            dsimp only
            by_cases hc2 : c2 = 0
            · rw [if_pos hc2, if_pos hc2]
              apply ih
              simp only [inputPart_applyWrites2]
              exact hinp
            · rw [if_neg hc2, if_neg hc2]
              apply ih
              simp only [inputPart_applyWrites2]
              exact hinp
        · apply ih
          simp only [inputPart_applyWrites2]
          exact hinp

lemma extract_rpi_go_state (env : Env) (jr : FPath) (cmd : String) (rpis : List FPath) :
    ∀ fs p l r, extract_rpi_go env jr cmd rpis fs p l = .ok r →
      inputPart r.1 = inputPart fs ∧
      (∀ q, hasKey fs q = true → hasKey r.1 q = true) := by
  induction rpis with
  | nil =>
    intro fs p l r h
    simp only [extract_rpi_go, Except.ok.injEq] at h
    rw [← h]
    exact ⟨rfl, fun q hq => hq⟩
  | cons rpi rest ih =>
    intro fs p l r h
    rcases hr : runCmd (env.rpatoolExtractRun [cmd, "-o",
        pathStr (jr ++ ["output", "rpi_extract", stemOf (lastName rpi)]), "-x",
        pathStr (jr ++ rpi)]).1 with e | trip
    · simp only [extract_rpi_go, rpi_try, hr] at h
      exact absurd h (by simp)
    · obtain ⟨c, o, er⟩ := trip
      simp only [extract_rpi_go, rpi_try, hr] at h
      by_cases hc : c = 0
      · rw [if_pos hc] at h
        obtain ⟨h1, h2⟩ := ih _ _ _ _ h
        simp only [inputPart_applyWrites2] at h1
        exact ⟨h1, fun q hq => h2 q (hasKey_applyWrites_mono _ _ _ _ hq)⟩
      · rw [if_neg hc] at h
        split at h
        · rcases hr2 : runCmd (env.rpatoolExtractRun [cmd, "-o",
              pathStr (jr ++ ["output", "rpi_extract", stemOf (lastName rpi)]), "-x",
              pathStr (jr ++ ["input", stemOf (lastName rpi) ++ ".rpa"])]).1 with e2 | trip2
          · simp only [hr2] at h
            exact absurd h (by simp)
          · obtain ⟨c2, o2, er2⟩ := trip2
            simp only [hr2] at h
            by_cases hc2 : c2 = 0
            · rw [if_pos hc2] at h
              obtain ⟨h1, h2⟩ := ih _ _ _ _ h
              simp only [inputPart_applyWrites2] at h1
              exact ⟨h1, fun q hq => h2 q (hasKey_applyWrites_mono _ _ _ _
                (hasKey_applyWrites_mono _ _ _ _ hq))⟩
            · rw [if_neg hc2] at h
              obtain ⟨h1, h2⟩ := ih _ _ _ _ h
              simp only [inputPart_applyWrites2] at h1
              exact ⟨h1, fun q hq => h2 q (hasKey_applyWrites_mono _ _ _ _
                (hasKey_applyWrites_mono _ _ _ _ hq))⟩
        · obtain ⟨h1, h2⟩ := ih _ _ _ _ h
          simp only [inputPart_applyWrites2] at h1
          exact ⟨h1, fun q hq => h2 q (hasKey_applyWrites_mono _ _ _ _ hq)⟩

lemma exc_map_err {γ α β : Type} (g : α → β) (e : γ) :
    (Except.error e : Except γ α).map g = .error e := rfl

lemma exc_map_ok {γ α β : Type} (g : α → β) (a : α) :
    (Except.ok a : Except γ α).map g = .ok (g a) := rfl

lemma exc_map_ok_inv {γ α β : Type} {x : Except γ α} {g : α → β} {y : β}
    (h : x.map g = .ok y) : ∃ a, x = .ok a ∧ g a = y := by
  cases x with
  | error e => rw [exc_map_err] at h; exact absurd h (by simp)
  | ok a =>
    rw [exc_map_ok] at h
    injection h with h2
    exact ⟨a, rfl, h2⟩

lemma filterMap_restrict {α β : Type} (g : α → Option β) (q : α → Bool)
    (h : ∀ a, g a ≠ none → q a = true) :
    ∀ l : List α, l.filterMap g = (l.filter q).filterMap g := by
  intro l
  induction l with
  | nil => rfl
  | cons a rest ih =>
    rw [List.filter_cons]
    cases hq : q a with
    | true => simp only [hq, reduceIte, List.filterMap_cons, ih]
    | false =>
      have hg : g a = none := by
        cases hgg : g a with
        | none => rfl
        | some b => rw [h a (by simp [hgg])] at hq; cases hq
      simp only [hq, Bool.false_eq_true, if_false, List.filterMap_cons, hg, ih]

lemma isPrefixOf_append_self (d p : List String) : d.isPrefixOf (d ++ p) = true :=
  List.isPrefixOf_iff_prefix.mpr (List.prefix_append d p)

lemma filter_setFile (P : FPath × Bytes → Bool) (fs : Files) (p : FPath) (b : Bytes)
    (hP : P (p, b) = true) :
    (setFile fs p b).filter P = setFile (fs.filter P) p b := by
  unfold setFile
  rw [List.filter_append, List.filter_filter, List.filter_filter]
  congr 1
  · apply List.filter_congr
    intro f _
    rw [Bool.and_comm]
  · simp [hP]

lemma filter_stageFold (d : FPath) (P : FPath × Bytes → Bool)
    (hP : ∀ (p : FPath) (b : Bytes), P (d ++ p, b) = true) :
    ∀ (src : List (FPath × Bytes)) (fs : Files),
      (stageFold d src fs).filter P = stageFold d src (fs.filter P) := by
  intro src
  induction src with
  | nil => intro fs; rfl
  | cons a rest ih =>
    intro fs
    rw [stageFold_cons, stageFold_cons, ih, filter_setFile P fs _ _ (hP a.1 a.2)]

lemma topNames_filter (fs : Files) (d : FPath) :
    topNames fs d = topNames (fs.filter (fun f => d.isPrefixOf f.1)) d := by
  unfold topNames
  rw [filterMap_restrict _ (fun f => d.isPrefixOf f.1) ?_ fs]
  intro f hf
  by_cases hc : d.isPrefixOf f.1 = true
  · exact hc
  · rw [if_neg hc] at hf
    exact absurd rfl hf

lemma removeSubtree_filter_pre (fs : Files) (d : FPath) :
    (removeSubtree fs d).filter (fun f => d.isPrefixOf f.1) = [] := by
  unfold removeSubtree
  rw [List.filter_filter]
  simp [Bool.and_not_self]

lemma topNames_staged_congr (d : FPath) (src : List (FPath × Bytes)) (f1 f2 : Files)
    (h1 : f1.filter (fun f => d.isPrefixOf f.1) = [])
    (h2 : f2.filter (fun f => d.isPrefixOf f.1) = []) :
    topNames (stageFold d src f1) d = topNames (stageFold d src f2) d := by
  have hP : ∀ (p : FPath) (b : Bytes),
      (fun f : FPath × Bytes => d.isPrefixOf f.1) (d ++ p, b) = true :=
    fun p _ => isPrefixOf_append_self d p
  rw [topNames_filter (stageFold d src f1) d, topNames_filter (stageFold d src f2) d,
    filter_stageFold d _ hP src f1, filter_stageFold d _ hP src f2, h1, h2]

lemma head_of_prefix_input {d : FPath} (hd : d.head? = some "input") (p : FPath)
    (hp : d.isPrefixOf p = true) : p.head? = some "input" := by
  obtain ⟨t, ht⟩ := List.isPrefixOf_iff_prefix.mp hp
  rw [← ht]
  cases d with
  | nil => simp at hd
  | cons a rest =>
    have : a = "input" := by simpa using hd
    simp [this]

lemma subtreeRel_congr_inputPart {f1 f2 : Files} (h : inputPart f1 = inputPart f2)
    (d : FPath) (hd : d.head? = some "input") :
    subtreeRel f1 d = subtreeRel f2 d := by
  unfold subtreeRel
  have hc : ∀ f : FPath × Bytes,
      (if d.isPrefixOf f.1 && !(f.1 == d) then some (f.1.drop d.length, f.2) else none) ≠
        none → (f.1.head? == some "input") = true := by
    intro f hf
    by_cases hcond : (d.isPrefixOf f.1 && !(f.1 == d)) = true
    · simp only [Bool.and_eq_true] at hcond
      have := head_of_prefix_input hd f.1 hcond.1
      simp [this]
    · rw [if_neg hcond] at hf
      exact absurd rfl hf
  rw [filterMap_restrict _ (fun f => f.1.head? == some "input") hc f1,
    filterMap_restrict _ (fun f => f.1.head? == some "input") hc f2]
  unfold inputPart at h
  rw [h]

lemma inputPart_removeSubtree_out (xs : List String) (fs : Files) :
    inputPart (removeSubtree fs ("output" :: xs)) = inputPart fs := by
  unfold inputPart removeSubtree
  rw [List.filter_filter]
  apply List.filter_congr
  intro f _
  cases hh : (f.1.head? == some "input") with
  | false => simp [hh]
  | true =>
    have hf1 : f.1.head? = some "input" := by simpa using hh
    have hpre : ("output" :: xs).isPrefixOf f.1 = false := by
      cases hc : ("output" :: xs).isPrefixOf f.1 with
      | false => rfl
      | true =>
        obtain ⟨t, ht⟩ := List.isPrefixOf_iff_prefix.mp hc
        rw [← ht] at hf1
        simp at hf1
    simp [hh, hpre]

lemma removeSubtree_no_prefix (fs : Files) (d : FPath) :
    ∀ f ∈ removeSubtree fs d, d.isPrefixOf f.1 = false := by
  intro f hf
  have h := (List.mem_filter.mp hf).2
  simpa using h

lemma existsAt_false_of_no_prefix (fs : Files) (p : FPath)
    (hn1 : p ≠ []) (hn2 : p ≠ ["input"]) (hn3 : p ≠ ["output"])
    (h : ∀ f ∈ fs, p.isPrefixOf f.1 = false) : existsAt fs p = false := by
  have h1 : fs.any (fun f => p.isPrefixOf f.1 && !(f.1 == p)) = false := by
    rw [List.any_eq_false]
    intro f hf
    rw [h f hf]
    simp
  have h2 : fs.any (fun f => f.1 == p) = false := by
    rw [List.any_eq_false]
    intro f hf
    intro hc
    have hfp : f.1 = p := by simpa using hc
    have := h f hf
    rw [hfp, List.isPrefixOf_iff_prefix.mpr (List.prefix_refl p)] at this
    cases this
  unfold existsAt isDirAt hasKey
  rw [beq_eq_false_iff_ne.mpr hn1, beq_eq_false_iff_ne.mpr hn2,
    beq_eq_false_iff_ne.mpr hn3, h1, h2]
  rfl

lemma staged_outPath_free (src : List (FPath × Bytes)) (f2 : Files)
    (hout2 : ∀ f ∈ f2, (["output"] : FPath).isPrefixOf f.1 = false)
    (parts : List String) (hparts : parts ≠ [])
    (hname : parts.head? ≠ some "_packroot") :
    ∀ f ∈ stageFold ["output", "_packroot"] src
        (removeSubtree f2 ["output", "_packroot"]),
      (("output" :: parts : FPath)).isPrefixOf f.1 = false := by
  intro f hf
  rcases mem_stageFold _ _ _ _ hf with h | ⟨rb, _, heq⟩
  · have hf2 : f ∈ f2 := (List.mem_filter.mp h).1
    cases hc : ("output" :: parts).isPrefixOf f.1 with
    | false => rfl
    | true =>
      obtain ⟨t, ht⟩ := List.isPrefixOf_iff_prefix.mp hc
      have hsh : (["output"] : FPath).isPrefixOf f.1 = true := by
        apply List.isPrefixOf_iff_prefix.mpr
        rw [← ht]
        exact ⟨parts ++ t, by simp⟩
      rw [hout2 f hf2] at hsh
      cases hsh
  · rw [heq]
    cases parts with
    | nil => exact absurd rfl hparts
    | cons c cs =>
      have hq : (c == "_packroot") = false := by
        apply beq_eq_false_iff_ne.mpr
        intro he
        exact hname (by rw [he]; rfl)
      show (("output" :: c :: cs : FPath)).isPrefixOf
        (["output", "_packroot"] ++ rb.1) = false
      simp [List.isPrefixOf, hq]

lemma isDirAt_output_true (fs : Files) : isDirAt fs ["output"] = true := by
  simp [isDirAt]

lemma existsAt_output_true (fs : Files) : existsAt fs ["output"] = true := by
  simp [existsAt, isDirAt]

lemma pack_dir_congr (env : Env) (jr : FPath) (sourceRel : FPath) (name : String)
    (ver : Int) (key : String) (pad : Int) (f1 f2 : Files)
    (hinp : inputPart f1 = inputPart f2)
    (hsrc : sourceRel.head? = some "input")
    (hname : (pyPartsL name).head? ≠ some "_packroot")
    (hout2 : ∀ f ∈ f2, (["output"] : FPath).isPrefixOf f.1 = false)
    (r1 : Files × Option FPath × List String)
    (h1 : pack_rpa_from_dir env jr f1 sourceRel name ver key pad = .ok r1) :
    ∃ g2, pack_rpa_from_dir env jr f2 sourceRel name ver key pad =
      .ok (g2, r1.2.1, r1.2.2) := by
  have hdir := isDirAt_congr_inputPart hinp sourceRel hsrc
  simp only [pack_rpa_from_dir, List.cons_append, List.nil_append] at h1 ⊢
  by_cases hd : isDirAt f1 sourceRel = true
  · have hd2 : isDirAt f2 sourceRel = true := by rw [← hdir]; exact hd
    simp only [hd, Bool.not_true, Bool.false_eq_true, if_false] at h1
    simp only [hd2, Bool.not_true, Bool.false_eq_true, if_false]
    have hclin : inputPart (removeSubtree f1 ["output", "_packroot"]) =
        inputPart (removeSubtree f2 ["output", "_packroot"]) := by
      rw [inputPart_removeSubtree_out, inputPart_removeSubtree_out]
      exact hinp
    have hsrceq := subtreeRel_congr_inputPart hclin sourceRel hsrc
    rw [← hsrceq]
    set A := subtreeRel (removeSubtree f1 ["output", "_packroot"]) sourceRel with hA
    set S1 := stageFold ["output", "_packroot"] A
      (removeSubtree f1 ["output", "_packroot"]) with hS1
    set S2 := stageFold ["output", "_packroot"] A
      (removeSubtree f2 ["output", "_packroot"]) with hS2
    have hent : topNames S1 ["output", "_packroot"] =
        topNames S2 ["output", "_packroot"] := by
      rw [hS1, hS2]
      exact topNames_staged_congr ["output", "_packroot"] A
        (removeSubtree f1 ["output", "_packroot"])
        (removeSubtree f2 ["output", "_packroot"])
        (removeSubtree_filter_pre f1 ["output", "_packroot"])
        (removeSubtree_filter_pre f2 ["output", "_packroot"])
    rw [← hent]
    by_cases he : topNames S1 ["output", "_packroot"] = []
    · rw [if_pos he] at h1
      rw [if_pos he]
      injection h1 with hx
      exact ⟨_, by rw [← hx]⟩
    · rw [if_neg he] at h1
      rw [if_neg he]
      by_cases hparts : pyPartsL name = []
      · exfalso
        rw [hparts] at h1
        simp only [existsAt_output_true, isDirAt_output_true, reduceIte] at h1
        simp at h1
      · have hex2 : existsAt S2 ("output" :: pyPartsL name) = false := by
          rw [hS2]
          refine existsAt_false_of_no_prefix _ _ (by simp) (by simp) ?_ ?_
          · simpa using hparts
          · exact staged_outPath_free A f2 hout2 (pyPartsL name) hparts hname
        simp only [hex2, Bool.false_eq_true, if_false]
        by_cases hax : existsAt S1 ("output" :: pyPartsL name) = true
        · simp only [hax, reduceIte] at h1
          by_cases had : isDirAt S1 ("output" :: pyPartsL name) = true
          · simp only [had, reduceIte] at h1
            simp at h1
          · have had2 := Bool.eq_false_iff.mpr had
            simp only [had2, Bool.false_eq_true, if_false] at h1
            rcases hk : pyIntHex key with _ | kI
            · simp only [hk] at h1 ⊢
              injection h1 with hx
              exact ⟨_, by rw [← hx]⟩
            · simp only [hk] at h1 ⊢
              split at h1
              · exact absurd h1 (by simp)
              · rename_i code out err heq
                split at h1
                all_goals split at h1
                all_goals rename_i hv hcond
                all_goals first
                  | rw [if_pos hv]
                  | rw [if_neg hv]
                all_goals first
                  | (rw [if_pos hcond]; injection h1 with hx; exact ⟨_, by rw [← hx]⟩)
                  | (rw [if_neg hcond]; injection h1 with hx; exact ⟨_, by rw [← hx]⟩)
        · have hax2 := Bool.eq_false_iff.mpr hax
          simp only [hax2, Bool.false_eq_true, if_false] at h1
          rcases hk : pyIntHex key with _ | kI
          · simp only [hk] at h1 ⊢
            injection h1 with hx
            exact ⟨_, by rw [← hx]⟩
          · simp only [hk] at h1 ⊢
            split at h1
            · exact absurd h1 (by simp)
            · rename_i code out err heq
              split at h1
              all_goals split at h1
              all_goals rename_i hv hcond
              all_goals first
                | rw [if_pos hv]
                | rw [if_neg hv]
              all_goals first
                | (rw [if_pos hcond]; injection h1 with hx; exact ⟨_, by rw [← hx]⟩)
                | (rw [if_neg hcond]; injection h1 with hx; exact ⟨_, by rw [← hx]⟩)
  · have hd1 : isDirAt f1 sourceRel = false := Bool.eq_false_iff.mpr hd
    have hd2 : isDirAt f2 sourceRel = false := by rw [← hdir]; exact hd1
    simp only [hd1, Bool.not_false, reduceIte] at h1
    simp only [hd2, Bool.not_false, reduceIte]
    injection h1 with hx
    exact ⟨_, by rw [← hx]⟩

lemma packBranch_congr (env : Env) (jr : FPath) (tag : String) (q : PackQuery)
    (f1 f2 : Files) (hinp : inputPart f1 = inputPart f2)
    (hq : q.pack_source_where = Side.input)
    (hname : (pyPartsL q.pack_name).head? ≠ some "_packroot")
    (hout2 : ∀ f ∈ f2, (["output"] : FPath).isPrefixOf f.1 = false)
    (r1 : Files × List String)
    (h1 : packBranch env jr tag q f1 = .ok r1) :
    ∃ g2, packBranch env jr tag q f2 = .ok (g2, r1.2) := by
  simp only [packBranch, hq, sideComps] at h1 ⊢
  rcases hrel : ensure_safe_relpath_allow_empty q.pack_source_path with e | rel
  · simp only [hrel] at h1
    exact absurd h1 (by simp)
  · simp only [hrel] at h1 ⊢
    by_cases hss : strStarts (pathStr (resolveComps (jr ++ ["input"] ++ splitSlash rel)))
        (pathStr (resolveComps (jr ++ ["input"]))) = true
    · simp only [hss, Bool.not_true, Bool.false_eq_true, if_false] at h1 ⊢
      rcases hpk : pack_rpa_from_dir env jr f1 (["input"] ++ pyPartsL rel) q.pack_name
          q.pack_version q.pack_key_hex q.pack_padding with e | v
      · simp only [hpk] at h1
        exact absurd h1 (by simp)
      · simp only [hpk] at h1
        obtain ⟨vf, vo, vl⟩ := v
        dsimp only at h1
        obtain ⟨g2, hg2⟩ := pack_dir_congr env jr (["input"] ++ pyPartsL rel) q.pack_name
          q.pack_version q.pack_key_hex q.pack_padding f1 f2 hinp rfl hname hout2
          (vf, vo, vl) hpk
        rw [hg2]
        dsimp only
        injection h1 with hx
        exact ⟨g2, by rw [← hx]⟩
    · have hss2 := Bool.eq_false_iff.mpr hss
      simp only [hss2, Bool.not_false, reduceIte] at h1
      exact absurd h1 (by simp)

lemma process_job_noRoot (env : Env) (jr : FPath) (m : Mode) (th : Bool)
    (q : PackQuery) (jf : Files) :
    process_job env jr m th q ⟨false, jf⟩ = .error .jobNotFound := rfl

lemma process_job_decompile_run (env : Env) (jr : FPath) (th : Bool)
    (q : PackQuery) (jf : Files) :
    process_job env jr Mode.decompile th q ⟨true, jf⟩ =
      .ok ((step1Of env th jf).1,
        (step1Of env th jf).2 ++ [] ++ [] ++ []) := rfl

lemma process_job_extract_rpa_run (env : Env) (jr : FPath) (th : Bool)
    (q : PackQuery) (jf : Files) :
    process_job env jr Mode.extract_rpa th q ⟨true, jf⟩ =
      (match (if rpasOf jf ≠ [] then
              (extract_rpa_with_unrpa env jr (rpasOf jf) (files0Of jf)).map
                (fun r => (r.1, r.2.2))
            else Except.ok (files0Of jf, ["[extract_rpa] No .rpa files found."])) with
       | .error e => .error (.exc e)
       | .ok s2 => .ok (s2.1, ([] : List String) ++ s2.2 ++ [] ++ [])) := rfl

lemma process_job_extract_rpi_run (env : Env) (jr : FPath) (th : Bool)
    (q : PackQuery) (jf : Files) :
    process_job env jr Mode.extract_rpi th q ⟨true, jf⟩ =
      (match (if rpisOf jf ≠ [] then
              (extract_rpi_with_rpatool env jr (rpisOf jf) (files0Of jf)).map
                (fun r => (r.1, r.2.2))
            else Except.ok (files0Of jf, ["[extract_rpi] No .rpi files found."])) with
       | .error e => .error (.exc e)
       | .ok s3 => .ok (s3.1, ([] : List String) ++ [] ++ s3.2 ++ [])) := rfl

lemma process_job_pack_run (env : Env) (jr : FPath) (th : Bool)
    (q : PackQuery) (jf : Files) :
    process_job env jr Mode.pack_rpa th q ⟨true, jf⟩ =
      (match packBranch env jr "pack" q (files0Of jf) with
       | .error e => .error e
       | .ok s4 => .ok (s4.1, ([] : List String) ++ [] ++ [] ++ s4.2)) := rfl

lemma process_job_auto_run (env : Env) (jr : FPath) (th : Bool)
    (q : PackQuery) (jf : Files) :
    process_job env jr Mode.auto th q ⟨true, jf⟩ =
      (match (if rpasOf jf ≠ [] then
              (extract_rpa_with_unrpa env jr (rpasOf jf) (step1Of env th jf).1).map
                (fun r => (r.1, r.2.2))
            else Except.ok ((step1Of env th jf).1,
              ["[extract_rpa] No .rpa files found."])) with
       | .error e => .error (.exc e)
       | .ok s2 =>
         match (if rpisOf jf ≠ [] then
                (extract_rpi_with_rpatool env jr (rpisOf jf) s2.1).map
                  (fun r => (r.1, r.2.2))
              else Except.ok (s2.1, ["[extract_rpi] No .rpi files found."])) with
         | .error e => .error (.exc e)
         | .ok s3 =>
           match packBranch env jr "pack" q s3.1 with
           | .error e => .error e
           | .ok s4 => .ok (s4.1,
               (step1Of env th jf).2 ++ s2.2 ++ s3.2 ++ s4.2)) := rfl

lemma step1Of_inputPart (env : Env) (th : Bool) (jf : Files) :
    inputPart (step1Of env th jf).1 = inputPart (files0Of jf) := by
  unfold step1Of
  by_cases hc : rpycsOf jf ≠ []
  · rw [if_pos hc]
    dsimp only
    simp only [decompile_rpyc_files]
    exact decompile_go_inputPart env.unrpyc th (rpycsOf jf) (files0Of jf) [] []
  · rw [if_neg hc]

/-- C4 (amended): when an auto-mode run succeeds and the pack source lies on
    the input side with an archive name outside the private staging
    directory, auto is the four single modes in their fixed order: each
    single-mode run on the same job succeeds and the auto log is exactly the
    concatenation of the four single-mode logs in order; and a mode whose
    candidate set is empty contributes its no-files line without invoking
    any external processor, identically under every environment. The
    original claim fails without the success hypothesis: an uncaught
    timeout in an early mode aborts the whole request, so later modes do
    not run independently of earlier failures. -/
theorem process_job_auto_decomposition (env : Env) (jr : FPath) (th : Bool)
    (q : PackQuery) (j : Job) (r : Files × List String)
    (hq : q.pack_source_where = Side.input)
    (hname : (pyPartsL q.pack_name).head? ≠ some "_packroot")
    (h : process_job env jr Mode.auto th q j = .ok r) :
    (∃ r1 r2 r3 r4 : Files × List String,
      process_job env jr Mode.decompile th q j = .ok r1 ∧
      process_job env jr Mode.extract_rpa th q j = .ok r2 ∧
      process_job env jr Mode.extract_rpi th q j = .ok r3 ∧
      process_job env jr Mode.pack_rpa th q j = .ok r4 ∧
      r.2 = r1.2 ++ r2.2 ++ r3.2 ++ r4.2) ∧
    (rglobFiles (removeSubtree j.files ["output"]) ["input"] ".rpyc" = [] →
      ∀ env2 : Env, process_job env2 jr Mode.decompile th q j =
        .ok (removeSubtree j.files ["output"], ["[decompile] No .rpyc files found."])) ∧
    (rglobFiles (removeSubtree j.files ["output"]) ["input"] ".rpa" = [] →
      ∀ env2 : Env, process_job env2 jr Mode.extract_rpa th q j =
        .ok (removeSubtree j.files ["output"], ["[extract_rpa] No .rpa files found."])) ∧
    (rglobFiles (removeSubtree j.files ["output"]) ["input"] ".rpi" = [] →
      ∀ env2 : Env, process_job env2 jr Mode.extract_rpi th q j =
        .ok (removeSubtree j.files ["output"], ["[extract_rpi] No .rpi files found."])) := by
  obtain ⟨re, jf⟩ := j
  cases re with
  | false =>
    rw [process_job_noRoot] at h
    exact absurd h (by simp)
  | true =>
    rw [process_job_auto_run] at h
    have hs1f := step1Of_inputPart env th jf
    have stage2 : ∃ (v2f : Files) (v2l : List String) (F2 : Files),
        ((match (if rpisOf jf ≠ [] then
                (extract_rpi_with_rpatool env jr (rpisOf jf) v2f).map
                  (fun r => (r.1, r.2.2))
              else Except.ok (v2f, ["[extract_rpi] No .rpi files found."])) with
         | .error e => .error (.exc e)
         | .ok s3 =>
           match packBranch env jr "pack" q s3.1 with
           | .error e => .error e
           | .ok s4 => .ok (s4.1,
               (step1Of env th jf).2 ++ v2l ++ s3.2 ++ s4.2)) :
          Except HErr (Files × List String)) = .ok r ∧
        inputPart v2f = inputPart (files0Of jf) ∧
        process_job env jr Mode.extract_rpa th q ⟨true, jf⟩ =
          .ok (F2, ([] : List String) ++ v2l ++ [] ++ []) := by
      by_cases ha : rpasOf jf ≠ []
      · rw [if_pos ha] at h
        rcases hx2 : extract_rpa_with_unrpa env jr (rpasOf jf) (step1Of env th jf).1
          with e2 | v2
        · simp only [hx2, exc_map_err] at h
          exact absurd h (by simp)
        · obtain ⟨v2f, v2p, v2l⟩ := v2
          simp only [hx2, exc_map_ok] at h
          have hx2t : extract_rpa_go env jr (rpasOf jf) (step1Of env th jf).1 [] [] =
              .ok (v2f, v2p, v2l) := hx2
          have hcg := extract_rpa_go_congr env jr (rpasOf jf) (files0Of jf)
            (step1Of env th jf).1 [] [] []
          rw [hx2t, exc_map_ok] at hcg
          dsimp only at hcg
          obtain ⟨w2, hw2, hw2l⟩ := exc_map_ok_inv hcg
          have hst := extract_rpa_go_state env jr (rpasOf jf) (step1Of env th jf).1
            [] [] _ hx2t
          refine ⟨v2f, v2l, w2.1, h, (hst.1).trans hs1f, ?_⟩
          rw [process_job_extract_rpa_run, if_pos ha]
          have hw2t : extract_rpa_with_unrpa env jr (rpasOf jf) (files0Of jf) =
              .ok w2 := hw2
          rw [hw2t, exc_map_ok, ← hw2l]
      · rw [if_neg ha] at h
        dsimp only at h
        refine ⟨(step1Of env th jf).1, ["[extract_rpa] No .rpa files found."],
          files0Of jf, h, hs1f, ?_⟩
        rw [process_job_extract_rpa_run, if_neg ha]
    obtain ⟨v2f, v2l, F2, h2m, hinp2, hr2⟩ := stage2
    have stage3 : ∃ (v3f : Files) (v3l : List String) (F3 : Files),
        ((match packBranch env jr "pack" q v3f with
         | .error e => .error e
         | .ok s4 => .ok (s4.1,
             (step1Of env th jf).2 ++ v2l ++ v3l ++ s4.2)) :
          Except HErr (Files × List String)) = .ok r ∧
        inputPart v3f = inputPart (files0Of jf) ∧
        process_job env jr Mode.extract_rpi th q ⟨true, jf⟩ =
          .ok (F3, ([] : List String) ++ [] ++ v3l ++ []) := by
      by_cases hi : rpisOf jf ≠ []
      · rw [if_pos hi] at h2m
        rcases hx3 : extract_rpi_with_rpatool env jr (rpisOf jf) v2f with e3 | v3
        · simp only [hx3, exc_map_err] at h2m
          exact absurd h2m (by simp)
        · obtain ⟨v3f, v3p, v3l⟩ := v3
          simp only [hx3, exc_map_ok] at h2m
          have hx3t : extract_rpi_go env jr (env.rpatoolCmd.getD "rpatool")
              (rpisOf jf) v2f [] [] = .ok (v3f, v3p, v3l) := hx3
          have hcg := extract_rpi_go_congr env jr (env.rpatoolCmd.getD "rpatool")
            (rpisOf jf) (files0Of jf) v2f [] [] [] hinp2.symm
          rw [hx3t, exc_map_ok] at hcg
          dsimp only at hcg
          obtain ⟨w3, hw3, hw3l⟩ := exc_map_ok_inv hcg
          have hst := extract_rpi_go_state env jr (env.rpatoolCmd.getD "rpatool")
            (rpisOf jf) v2f [] [] _ hx3t
          refine ⟨v3f, v3l, w3.1, h2m, (hst.1).trans hinp2, ?_⟩
          rw [process_job_extract_rpi_run, if_pos hi]
          have hw3t : extract_rpi_with_rpatool env jr (rpisOf jf) (files0Of jf) =
              .ok w3 := hw3
          rw [hw3t, exc_map_ok, ← hw3l]
      · rw [if_neg hi] at h2m
        dsimp only at h2m
        refine ⟨v2f, ["[extract_rpi] No .rpi files found."], files0Of jf, h2m,
          hinp2, ?_⟩
        rw [process_job_extract_rpi_run, if_neg hi]
    obtain ⟨v3f, v3l, F3, h3m, hinp3, hr3⟩ := stage3
    rcases hx4 : packBranch env jr "pack" q v3f with e4 | v4
    · simp only [hx4] at h3m
      exact absurd h3m (by simp)
    · obtain ⟨v4f, v4l⟩ := v4
      simp only [hx4] at h3m
      injection h3m with hr
      obtain ⟨g4, hg4⟩ := packBranch_congr env jr "pack" q v3f (files0Of jf) hinp3
        hq hname (fun f hf => removeSubtree_no_prefix jf ["output"] f hf)
        (v4f, v4l) hx4
      have hr4 : process_job env jr Mode.pack_rpa th q ⟨true, jf⟩ =
          .ok (g4, ([] : List String) ++ [] ++ [] ++ v4l) := by
        rw [process_job_pack_run, hg4]
      have hr1 := process_job_decompile_run env jr th q jf
      refine ⟨⟨_, _, _, _, hr1, hr2, hr3, hr4, ?_⟩, ?_, ?_, ?_⟩
      · rw [← hr]
        dsimp only
        simp
      · intro hz env2
        rw [process_job_decompile_run env2 jr th q jf]
        unfold step1Of
        rw [if_neg (show ¬(rpycsOf jf ≠ []) from fun hc => hc hz)]
        dsimp only
        simp [files0Of]
      · intro hz env2
        rw [process_job_extract_rpa_run env2 jr th q jf]
        have hz2 : rpasOf jf = [] := by simp [rpasOf, files0Of, hz]
        rw [if_neg (fun hc => hc hz2)]
        dsimp only
        simp [files0Of]
      · intro hz env2
        rw [process_job_extract_rpi_run env2 jr th q jf]
        have hz2 : rpisOf jf = [] := by simp [rpisOf, files0Of, hz]
        rw [if_neg (fun hc => hc hz2)]
        dsimp only
        simp [files0Of]

/-- C4 is refuted as stated: on a job with one container archive and one
    index file, when the container extraction times out the auto request
    aborts with the uncaught exception and produces no aggregated log at
    all, while the index-extraction mode run on its own on the same job
    succeeds with a non-empty log; so auto is not the independent
    composition of the other modes when an earlier mode fails this way. -/
theorem process_job_auto_not_decomposition :
    process_job envC4 ["tmp", "j4"] Mode.auto false qDefault jobC4 =
      .error (HErr.exc PyExc.timeoutExpired) ∧
    ∃ r3, process_job envC4 ["tmp", "j4"] Mode.extract_rpi false qDefault jobC4 =
      .ok r3 ∧ r3.2 ≠ [] := by
  refine ⟨rfl, ⟨_, rfl, ?_⟩⟩
  decide

theorem process_job_auto_decomposition_witness :
    (∃ r1 r2 r3 r4 : Files × List String,
      process_job envW4 ["tmp", "w4"] Mode.decompile false qDefault jobW4 = .ok r1 ∧
      process_job envW4 ["tmp", "w4"] Mode.extract_rpa false qDefault jobW4 = .ok r2 ∧
      process_job envW4 ["tmp", "w4"] Mode.extract_rpi false qDefault jobW4 = .ok r3 ∧
      process_job envW4 ["tmp", "w4"] Mode.pack_rpa false qDefault jobW4 = .ok r4 ∧
      ((([] : Files), ["[decompile] No .rpyc files found.",
        "[extract_rpa] No .rpa files found.", "[extract_rpi] No .rpi files found.",
        "[pack] Source directory is empty."]) :
          Files × List String).2 = r1.2 ++ r2.2 ++ r3.2 ++ r4.2) ∧
    (rglobFiles (removeSubtree jobW4.files ["output"]) ["input"] ".rpyc" = [] →
      ∀ env2 : Env, process_job env2 ["tmp", "w4"] Mode.decompile false qDefault jobW4 =
        .ok (removeSubtree jobW4.files ["output"],
          ["[decompile] No .rpyc files found."])) ∧
    (rglobFiles (removeSubtree jobW4.files ["output"]) ["input"] ".rpa" = [] →
      ∀ env2 : Env, process_job env2 ["tmp", "w4"] Mode.extract_rpa false qDefault jobW4 =
        .ok (removeSubtree jobW4.files ["output"],
          ["[extract_rpa] No .rpa files found."])) ∧
    (rglobFiles (removeSubtree jobW4.files ["output"]) ["input"] ".rpi" = [] →
      ∀ env2 : Env, process_job env2 ["tmp", "w4"] Mode.extract_rpi false qDefault jobW4 =
        .ok (removeSubtree jobW4.files ["output"],
          ["[extract_rpi] No .rpi files found."])) :=
  process_job_auto_decomposition envW4 ["tmp", "w4"] false qDefault jobW4
    (([] : Files), ["[decompile] No .rpyc files found.",
      "[extract_rpa] No .rpa files found.", "[extract_rpi] No .rpi files found.",
      "[pack] Source directory is empty."]) rfl (by decide) rfl

